import Mathlib

/-
  Shallow embedding of the keyword-matching and ATS-scoring engine of the
  jobfit-resume-agent repository (src/agents/resume_agent.py and the
  resume-experience analysis of src/agents/qa_agent.py), together with
  theorems settling the frozen claims about it.

  Texts are modelled as lists of characters.  Python floats are modelled as
  exact rationals (all float literals in the source, 0.2 and 0.15, are exact
  decimal constants and every comparison in the claims is far from any
  rounding boundary).  Python str.lower is modelled as the per-character
  Char.toLower map, which agrees with it on the ASCII texts the engine works
  on.  Python str.count counts non-overlapping occurrences greedily from the
  left; countOcc below implements exactly that.
-/

namespace JobFit

abbrev Text := List Char

def txt (s : String) : Text := s.data

/-- Python str.lower, per character (ASCII-faithful). -/
def lowerText (t : Text) : Text := t.map Char.toLower

/-- Greedy non-overlapping occurrence counter, the semantics of Python
str.count for a non-empty pattern.  The extra Nat argument is the number of
characters still to skip after a match has been consumed. -/
def countOccAux (pat : Text) : Text → Nat → Nat
  | [], _ => 0
  | _ :: rest, n + 1 => countOccAux pat rest n
  | c :: rest, 0 =>
    if pat.isPrefixOf (c :: rest) then 1 + countOccAux pat rest (pat.length - 1)
    else countOccAux pat rest 0

/-- Python str.count: for the empty pattern Python returns length + 1. -/
def countOcc (pat text : Text) : Nat :=
  if pat.isEmpty then text.length + 1 else countOccAux pat text 0

/-- Python substring membership: p in s holds exactly when s.count(p) > 0. -/
def containsSub (hay pat : Text) : Bool := decide (0 < countOcc pat hay)

/-- Python str.join. -/
def joinSep (sep : Text) : List Text → Text
  | [] => []
  | [x] => x
  | x :: y :: rest => x ++ sep ++ joinSep sep (y :: rest)

/-- First-occurrence deduplication; models Python list(set(...)) up to the
unspecified iteration order of a Python set (no claim depends on that
order). -/
def dedupKeepFirst : List Text → List Text → List Text
  | [], _ => []
  | x :: xs, seen =>
    if seen.contains x then dedupKeepFirst xs seen
    else x :: dedupKeepFirst xs (seen ++ [x])

/-! ### Keyword taxonomy tables (resume_agent.py, extract_job_keywords) -/

def tech_terms_with_variations : List (Text × List Text) :=
  [ (txt "python", [txt "python", txt "py", txt "django", txt "flask", txt "fastapi", txt "python3"]),
    (txt "javascript", [txt "javascript", txt "js", txt "ecmascript", txt "vanilla js", txt "node"]),
    (txt "typescript", [txt "typescript", txt "ts", txt "type script"]),
    (txt "react", [txt "react", txt "reactjs", txt "react.js", txt "react native", txt "jsx"]),
    (txt "node.js", [txt "node.js", txt "nodejs", txt "node js", txt "express", txt "express.js"]),
    (txt "aws", [txt "aws", txt "amazon web services", txt "ec2", txt "lambda", txt "s3", txt "cloudformation"]),
    (txt "gcp", [txt "gcp", txt "google cloud", txt "google cloud platform"]),
    (txt "docker", [txt "docker", txt "containerization", txt "containers", txt "dockerfile"]),
    (txt "kubernetes", [txt "kubernetes", txt "k8s", txt "kubectl", txt "helm", txt "container orchestration"]),
    (txt "postgresql", [txt "postgresql", txt "postgres", txt "psql", txt "pg"]),
    (txt "mongodb", [txt "mongodb", txt "mongo", txt "nosql", txt "document database"]),
    (txt "machine learning", [txt "machine learning", txt "ml", txt "artificial intelligence", txt "ai"]),
    (txt "api", [txt "api", txt "restful", txt "rest", txt "graphql", txt "microservices"]),
    (txt "ci/cd", [txt "ci/cd", txt "continuous integration", txt "continuous deployment", txt "devops"]),
    (txt "git", [txt "git", txt "github", txt "gitlab", txt "version control", txt "source control"]),
    (txt "agile", [txt "agile", txt "scrum", txt "kanban", txt "sprint", txt "jira"]),
    (txt "redis", [txt "redis", txt "caching", txt "in-memory database"]),
    (txt "elasticsearch", [txt "elasticsearch", txt "elk", txt "search engine", txt "full-text search"]),
    (txt "terraform", [txt "terraform", txt "infrastructure as code", txt "iac"]),
    (txt "nextjs", [txt "next.js", txt "nextjs", txt "next js"]),
    (txt "fastapi", [txt "fastapi", txt "fast api"]),
    (txt "langchain", [txt "langchain", txt "lang chain", txt "llm framework"]),
    (txt "openai", [txt "openai", txt "gpt", txt "llm integration"]),
    (txt "supabase", [txt "supabase", txt "firebase", txt "backend as a service"]),
    (txt "zustand", [txt "zustand", txt "state management"]) ]

def soft_terms_patterns : List (Text × List Text) :=
  [ (txt "leadership", [txt "lead", txt "leadership", txt "manage", txt "mentor", txt "guide", txt "supervise"]),
    (txt "collaboration", [txt "collaborate", txt "teamwork", txt "cross-functional", txt "work with"]),
    (txt "communication", [txt "communicate", txt "present", txt "explain", txt "articulate", txt "documentation"]),
    (txt "problem-solving", [txt "problem-solving", txt "troubleshoot", txt "debug", txt "resolve", txt "solve"]),
    (txt "innovation", [txt "innovative", txt "creative", txt "improve", txt "optimize", txt "enhance"]),
    (txt "analytical", [txt "analytical", txt "analyze", txt "data-driven", txt "metrics", txt "insights"]),
    (txt "strategic", [txt "strategic", txt "planning", txt "roadmap", txt "vision", txt "long-term"]),
    (txt "adaptability", [txt "adaptable", txt "flexible", txt "learn", txt "growth mindset", txt "evolve"]) ]

def industry_terms : List (Text × List Text) :=
  [ (txt "startup", [txt "startup", txt "early-stage", txt "founding", txt "scale-up"]),
    (txt "enterprise", [txt "enterprise", txt "large-scale", txt "fortune", txt "corporate"]),
    (txt "saas", [txt "saas", txt "software as a service", txt "b2b", txt "platform"]),
    (txt "fintech", [txt "fintech", txt "financial", txt "banking", txt "payments"]),
    (txt "healthcare", [txt "healthcare", txt "medical", txt "health", txt "patient"]),
    (txt "e-commerce", [txt "e-commerce", txt "retail", txt "marketplace", txt "shopping"]),
    (txt "remote", [txt "remote", txt "distributed", txt "work from home", txt "virtual"]),
    (txt "performance", [txt "performance", txt "optimization", txt "scaling", txt "efficiency"]),
    (txt "security", [txt "security", txt "authentication", txt "authorization", txt "encryption"]),
    (txt "analytics", [txt "analytics", txt "data", txt "metrics", txt "insights", txt "reporting"]) ]

def strong_action_verbs : List Text :=
  [ txt "architect", txt "build", txt "create", txt "develop", txt "design", txt "implement", txt "engineer",
    txt "deliver", txt "execute", txt "manage", txt "lead", txt "drive", txt "optimize", txt "improve",
    txt "enhance", txt "streamline", txt "automate", txt "integrate", txt "collaborate", txt "coordinate",
    txt "spearhead", txt "establish", txt "maintain", txt "deploy", txt "scale", txt "monitor",
    txt "troubleshoot", txt "resolve", txt "analyze", txt "evaluate", txt "research", txt "innovate",
    txt "transform", txt "modernize", txt "accelerate", txt "achieve", txt "exceed", txt "increase",
    txt "reduce", txt "minimize", txt "maximize", txt "ensure", txt "guarantee", txt "facilitate",
    txt "contribute", txt "participate", txt "support", txt "mentor", txt "guide", txt "train" ]

def metrics_context_words : List Text :=
  [ txt "performance", txt "efficiency", txt "throughput", txt "latency", txt "uptime",
    txt "availability", txt "scalability", txt "growth", txt "increase", txt "improve",
    txt "reduce", txt "optimize", txt "accelerate", txt "users", txt "traffic", txt "load",
    txt "volume", txt "capacity", txt "speed", txt "time", txt "cost", txt "revenue" ]

/-! ### Metric regex patterns (_extract_metrics_context)

The eleven regular expressions of the source have two shapes:
digits, optional plus, optional whitespace, a literal word, optional final s
(patterns 1-8); and a literal word followed by mandatory whitespace and
digits, with "scale" additionally requiring "to" (patterns 9-11).  For these
character-class-disjoint patterns, greedy scanning without backtracking is
exactly the semantics of re.findall. -/

/-- Matcher for the regex shapes like \d+\+?\s*years? at the head of the
text: returns the matched text and the rest. -/
def matchNumPat (suffix : Text) (optS : Bool) (t : Text) : Option (Text × Text) :=
  let ds := t.takeWhile Char.isDigit
  let r1 := t.dropWhile Char.isDigit
  if ds.isEmpty then none
  else
    let pl : Text × Text :=
      match r1 with
      | c :: r => if c = '+' then ([c], r) else ([], r1)
      | [] => ([], r1)
    let ws := pl.2.takeWhile Char.isWhitespace
    let r3 := pl.2.dropWhile Char.isWhitespace
    if suffix.isPrefixOf r3 then
      let r4 := r3.drop suffix.length
      let core := ds ++ pl.1 ++ ws ++ suffix
      if optS then
        match r4 with
        | c :: r5 => if c = 's' then some (core ++ [c], r5) else some (core, r4)
        | [] => some (core, r4)
      else some (core, r4)
    else none

/-- Matcher for the regex shape word\s+\d+ at the head of the text. -/
def matchLitWsNum (lit : Text) (t : Text) : Option (Text × Text) :=
  if lit.isPrefixOf t then
    let r1 := t.drop lit.length
    let sp := r1.takeWhile Char.isWhitespace
    let r2 := r1.dropWhile Char.isWhitespace
    if sp.isEmpty then none
    else
      let ds := r2.takeWhile Char.isDigit
      let r3 := r2.dropWhile Char.isDigit
      if ds.isEmpty then none else some (lit ++ sp ++ ds, r3)
  else none

/-- Matcher for the regex scale\s+to\s+\d+ at the head of the text. -/
def matchScaleToNum (t : Text) : Option (Text × Text) :=
  if (txt "scale").isPrefixOf t then
    let r1 := t.drop 5
    let sp1 := r1.takeWhile Char.isWhitespace
    let r2 := r1.dropWhile Char.isWhitespace
    if sp1.isEmpty then none
    else if (txt "to").isPrefixOf r2 then
      let r3 := r2.drop 2
      let sp2 := r3.takeWhile Char.isWhitespace
      let r4 := r3.dropWhile Char.isWhitespace
      if sp2.isEmpty then none
      else
        let ds := r4.takeWhile Char.isDigit
        let r5 := r4.dropWhile Char.isDigit
        if ds.isEmpty then none
        else some (txt "scale" ++ sp1 ++ txt "to" ++ sp2 ++ ds, r5)
    else none
  else none

/-- re.findall: scan left to right, taking each leftmost match and resuming
after it.  All matchers used consume at least one character on success, so a
fuel of the text length is exact. -/
def findAllAux (m : Text → Option (Text × Text)) : Nat → Text → List Text
  | 0, _ => []
  | _ + 1, [] => []
  | fuel + 1, c :: rest =>
    match m (c :: rest) with
    | some (s, r) => s :: findAllAux m fuel r
    | none => findAllAux m fuel rest

def findAllM (m : Text → Option (Text × Text)) (t : Text) : List Text :=
  findAllAux m t.length t

/-- Matcher for the quantification regex \d+[%\+]? used on the resume. -/
def matchNumberToken (t : Text) : Option (Text × Text) :=
  let ds := t.takeWhile Char.isDigit
  let r := t.dropWhile Char.isDigit
  if ds.isEmpty then none
  else
    match r with
    | c :: r2 => if c = '%' || c = '+' then some (ds ++ [c], r2) else some (ds, r)
    | [] => some (ds, r)

/-! ### Job-description analysis (extract_job_keywords) -/

structure TechKw where
  mentions : Nat
  variations : List Text
  importance : Nat
deriving DecidableEq

structure SoftKw where
  mentions : Nat
  patterns : List Text
  importance : Nat
deriving DecidableEq

structure IndKw where
  mentions : Nat
  importance : Nat
deriving DecidableEq

structure JobKeywords where
  technical : List (Text × TechKw)
  soft_skills : List (Text × SoftKw)
  industry : List (Text × IndKw)
  action_verbs : List Text
  metrics_expectations : List Text
  total_importance_score : Nat
deriving DecidableEq

/-- Sum of job_lower.count(variation.lower()) over the variation list.  In
the source the count is accumulated under a count > 0 guard, which changes
nothing because a zero count adds zero. -/
def total_variant_mentions (job_lower : Text) (variations : List Text) : Nat :=
  (variations.map (fun v => countOcc (lowerText v) job_lower)).sum

/-- The found_variations list of the source loop: variations whose count in
the lowered job text is positive, in table order. -/
def found_variations_of (job_lower : Text) (variations : List Text) : List Text :=
  variations.filter (fun v => containsSub job_lower (lowerText v))

def tech_keywords_of (job_lower : Text) : List (Text × TechKw) :=
  tech_terms_with_variations.filterMap (fun pv =>
    let total_mentions := total_variant_mentions job_lower pv.2
    let found_variations := found_variations_of job_lower pv.2
    if 0 < total_mentions then
      some (pv.1, ⟨total_mentions, found_variations,
        min 10 (total_mentions * 2 + found_variations.length)⟩)
    else none)

/-- Soft-skill mentions: the source adds job_lower.count(pattern) only when
the pattern is contained in the text; the guard is kept here verbatim. -/
def soft_mentions_of (job_lower : Text) (patterns : List Text) : Nat :=
  (patterns.map (fun p => if containsSub job_lower p then countOcc p job_lower else 0)).sum

def soft_keywords_of (job_lower : Text) : List (Text × SoftKw) :=
  soft_terms_patterns.filterMap (fun sp =>
    let mentions := soft_mentions_of job_lower sp.2
    let found_patterns := sp.2.filter (fun p => containsSub job_lower p)
    if 0 < mentions then
      some (sp.1, ⟨mentions, found_patterns, min 8 (mentions * 2)⟩)
    else none)

def industry_keywords_of (job_lower : Text) : List (Text × IndKw) :=
  industry_terms.filterMap (fun ct =>
    let mentions := soft_mentions_of job_lower ct.2
    if 0 < mentions then some (ct.1, ⟨mentions, min 6 (mentions * 2)⟩) else none)

/-- _extract_action_verbs: fixed verbs contained in the lowered job text. -/
def extract_action_verbs (job_description : Text) : List Text :=
  let job_lower := lowerText job_description
  strong_action_verbs.filter (fun verb => containsSub job_lower verb)

/-- _extract_metrics_context: regex findall results for the eleven metric
patterns, then the metric context words present, deduplicated. -/
def extract_metrics_context (job_description : Text) : List Text :=
  let job_lower := lowerText job_description
  let numeric_matches :=
    findAllM (matchNumPat (txt "year") true) job_lower ++
    findAllM (matchNumPat (txt "million") false) job_lower ++
    findAllM (matchNumPat (txt "billion") false) job_lower ++
    findAllM (matchNumPat (txt "%") false) job_lower ++
    findAllM (matchNumPat (txt "user") true) job_lower ++
    findAllM (matchNumPat (txt "request") true) job_lower ++
    findAllM (matchNumPat (txt "transaction") true) job_lower ++
    findAllM (matchNumPat (txt "customer") true) job_lower ++
    findAllM matchScaleToNum job_lower ++
    findAllM (matchLitWsNum (txt "handle")) job_lower ++
    findAllM (matchLitWsNum (txt "support")) job_lower
  let context_found := metrics_context_words.filter (fun c => containsSub job_lower c)
  dedupKeepFirst (numeric_matches ++ context_found) []

def extract_job_keywords (job_description : Text) : JobKeywords :=
  let job_lower := lowerText job_description
  let tech_keywords := tech_keywords_of job_lower
  let soft_keywords := soft_keywords_of job_lower
  let industry_keywords := industry_keywords_of job_lower
  { technical := tech_keywords
    soft_skills := soft_keywords
    industry := industry_keywords
    action_verbs := extract_action_verbs job_description
    metrics_expectations := extract_metrics_context job_description
    total_importance_score :=
      (tech_keywords.map (fun kv => kv.2.importance)).sum +
      (soft_keywords.map (fun kv => kv.2.importance)).sum +
      (industry_keywords.map (fun kv => kv.2.importance)).sum }

/-! ### Python repr of the profile dict

identify_irrelevant_sections tests substring membership in str(job_keywords);
the rendering below mirrors the Python repr of the nested dict (keys in
insertion order, strings quoted with apostrophes, ints bare). -/

def quoteC : Char := Char.ofNat 39
def lbraceC : Char := Char.ofNat 123
def rbraceC : Char := Char.ofNat 125

def pyQuoted (s : Text) : Text := quoteC :: (s ++ [quoteC])

def pyListRepr (items : List Text) : Text :=
  '[' :: (joinSep (txt ", ") items ++ [']'])

def pyDictRepr (pairs : List (Text × Text)) : Text :=
  lbraceC :: (joinSep (txt ", ") (pairs.map (fun p => pyQuoted p.1 ++ txt ": " ++ p.2)) ++ [rbraceC])

def natRepr (n : Nat) : Text := (Nat.repr n).data

def reprTechKw (d : TechKw) : Text :=
  pyDictRepr [ (txt "mentions", natRepr d.mentions),
               (txt "variations", pyListRepr (d.variations.map pyQuoted)),
               (txt "importance", natRepr d.importance) ]

def reprSoftKw (d : SoftKw) : Text :=
  pyDictRepr [ (txt "mentions", natRepr d.mentions),
               (txt "patterns", pyListRepr (d.patterns.map pyQuoted)),
               (txt "importance", natRepr d.importance) ]

def reprIndKw (d : IndKw) : Text :=
  pyDictRepr [ (txt "mentions", natRepr d.mentions),
               (txt "importance", natRepr d.importance) ]

def reprJobKeywords (jk : JobKeywords) : Text :=
  pyDictRepr
    [ (txt "technical", pyDictRepr (jk.technical.map (fun kv => (kv.1, reprTechKw kv.2)))),
      (txt "soft_skills", pyDictRepr (jk.soft_skills.map (fun kv => (kv.1, reprSoftKw kv.2)))),
      (txt "industry", pyDictRepr (jk.industry.map (fun kv => (kv.1, reprIndKw kv.2)))),
      (txt "action_verbs", pyListRepr (jk.action_verbs.map pyQuoted)),
      (txt "metrics_expectations", pyListRepr (jk.metrics_expectations.map pyQuoted)),
      (txt "total_importance_score", natRepr jk.total_importance_score) ]

/-! ### identify_irrelevant_sections -/

def personal_interests : List Text :=
  [ txt "basketball", txt "football", txt "soccer", txt "tennis", txt "golf", txt "swimming",
    txt "hiking", txt "cooking", txt "baking", txt "reading", txt "traveling", txt "photography",
    txt "music", txt "guitar", txt "piano", txt "singing", txt "dancing", txt "painting",
    txt "knitting", txt "gardening", txt "yoga", txt "meditation", txt "volunteering" ]

def outdated_tech_list : List Text :=
  [ txt "flash", txt "silverlight", txt "internet explorer", txt "jquery", txt "php4" ]

def junior_indicators : List Text :=
  [ txt "intern", txt "entry-level", txt "junior", txt "assistant" ]

def identify_irrelevant_sections (resume_text : Text) (job_keywords : JobKeywords) : List Text :=
  let resume_lower := lowerText resume_text
  let tech_job :=
    [txt "python", txt "javascript", txt "react"].any
      (fun kw => job_keywords.technical.any (fun kv => kv.1 == kw))
  let hobby_flags := personal_interests.filterMap (fun interest =>
    if containsSub resume_lower interest then
      if tech_job && !([txt "volunteering", txt "teaching", txt "mentoring"].contains interest) then
        some (txt "Personal interest: " ++ interest)
      else none
    else none)
  let job_requires_senior :=
    [txt "senior", txt "lead", txt "5+ years"].any
      (fun term => containsSub (reprJobKeywords job_keywords) term)
  let junior_flags :=
    if job_requires_senior then
      junior_indicators.filterMap (fun ind =>
        if containsSub resume_lower ind then some (txt "Junior-level reference: " ++ ind)
        else none)
    else []
  let outdated_flags := outdated_tech_list.filterMap (fun tech =>
    if containsSub resume_lower tech && !(job_keywords.technical.any (fun kv => kv.1 == tech)) then
      some (txt "Potentially outdated technology: " ++ tech)
    else none)
  hobby_flags ++ junior_flags ++ outdated_flags

/-! ### Match analysis (analyze_resume_match) -/

structure TechMatch where
  matched_variations : List Text
  importance : Nat
deriving DecidableEq

structure MatchResult where
  technical_matches : List (Text × TechMatch)
  soft_skill_matches : List (Text × Nat)
  industry_matches : List (Text × Nat)
  missing_high_priority : List Text
  missing_medium_priority : List Text
  action_verb_score : ℚ
  quantification_score : Nat
  irrelevant_content : List Text
  match_percentage : ℚ
  ats_optimization_score : ℚ
  ats_optimization_tips : List Text
deriving DecidableEq

structure TechAcc where
  total : Nat
  matched : Nat
  techMatches : List (Text × TechMatch)
  hi : List Text
  med : List Text
deriving DecidableEq

/-- The matched_variations of the inner loop over data.variations. -/
def matched_variations_of (resume_lower : Text) (variations : List Text) : List Text :=
  variations.filter (fun v => containsSub resume_lower (lowerText v))

/-- One iteration of the technical-keyword loop of analyze_resume_match. -/
def techStep (resume_lower : Text) (acc : TechAcc) (kv : Text × TechKw) : TechAcc :=
  let mv := matched_variations_of resume_lower kv.2.variations
  if mv.isEmpty then
    if 8 ≤ kv.2.importance then
      { acc with total := acc.total + kv.2.importance, hi := acc.hi ++ [kv.1] }
    else if 5 ≤ kv.2.importance then
      { acc with total := acc.total + kv.2.importance, med := acc.med ++ [kv.1] }
    else
      { acc with total := acc.total + kv.2.importance }
  else
    { acc with total := acc.total + kv.2.importance,
               matched := acc.matched + kv.2.importance,
               techMatches := acc.techMatches ++ [(kv.1, ⟨mv, kv.2.importance⟩)] }

def techLoop (resume_lower : Text) : List (Text × TechKw) → TechAcc → TechAcc
  | [], acc => acc
  | kv :: rest, acc => techLoop resume_lower rest (techStep resume_lower acc kv)

structure SoftAcc where
  total : Nat
  matched : Nat
  softMatches : List (Text × Nat)
  hi : List Text
deriving DecidableEq

/-- One iteration of the soft-skill loop of analyze_resume_match. -/
def softStep (resume_lower : Text) (acc : SoftAcc) (kv : Text × SoftKw) : SoftAcc :=
  if kv.2.patterns.any (fun p => containsSub resume_lower p) then
    { acc with total := acc.total + kv.2.importance,
               matched := acc.matched + kv.2.importance,
               softMatches := acc.softMatches ++ [(kv.1, kv.2.importance)] }
  else if 6 ≤ kv.2.importance then
    { acc with total := acc.total + kv.2.importance,
               hi := acc.hi ++ [kv.1 ++ txt " (soft skill)"] }
  else
    { acc with total := acc.total + kv.2.importance }

def softLoop (resume_lower : Text) : List (Text × SoftKw) → SoftAcc → SoftAcc
  | [], acc => acc
  | kv :: rest, acc => softLoop resume_lower rest (softStep resume_lower acc kv)

structure IndAcc where
  total : Nat
  matched : Nat
  indMatches : List (Text × Nat)
deriving DecidableEq

/-- The context_terms dict of the industry loop, with the .get default. -/
def context_terms (category : Text) : List Text :=
  if category = txt "remote" then [txt "remote", txt "distributed", txt "virtual team"]
  else if category = txt "startup" then [txt "startup", txt "early-stage", txt "founding"]
  else if category = txt "enterprise" then [txt "enterprise", txt "large-scale", txt "corporate"]
  else []

def three_context_categories : List Text := [txt "remote", txt "startup", txt "enterprise"]

/-- One iteration of the industry loop of analyze_resume_match: the
importance always enters the total; only the three context-based categories
are ever checked against the resume. -/
def indStep (resume_lower : Text) (acc : IndAcc) (kv : Text × IndKw) : IndAcc :=
  let acc1 := { acc with total := acc.total + kv.2.importance }
  if three_context_categories.contains kv.1 then
    if (context_terms kv.1).any (fun t => containsSub resume_lower t) then
      { acc1 with matched := acc1.matched + kv.2.importance,
                  indMatches := acc1.indMatches ++ [(kv.1, kv.2.importance)] }
    else acc1
  else acc1

def indLoop (resume_lower : Text) : List (Text × IndKw) → IndAcc → IndAcc
  | [], acc => acc
  | kv :: rest, acc => indLoop resume_lower rest (indStep resume_lower acc kv)

def high_priority_tip_text : Text := txt "HIGH PRIORITY: Include these critical keywords: "

def improve_tip_text : Text :=
  txt "IMPROVE: Use stronger action verbs from the job description in your bullet points"

def quantify_tip_text : Text :=
  txt "QUANTIFY: Add more numbers, percentages, and measurable achievements"

def remove_tip_text : Text :=
  txt "REMOVE: Consider removing irrelevant content to make room for job-relevant details"

/-- The four sequential tip-appending blocks at the end of
analyze_resume_match. -/
def build_tips (missing_high : List Text) (action_verb_score : ℚ)
    (quantification_score : Nat) (irrelevant_count : Nat) : List Text :=
  let tips0 : List Text := []
  let tips1 :=
    if 0 < missing_high.length then
      tips0 ++ [high_priority_tip_text ++ joinSep (txt ", ") (missing_high.take 3)]
    else tips0
  let tips2 := if action_verb_score < 50 then tips1 ++ [improve_tip_text] else tips1
  let tips3 := if quantification_score < 40 then tips2 ++ [quantify_tip_text] else tips2
  let tips4 := if 2 < irrelevant_count then tips3 ++ [remove_tip_text] else tips3
  tips4

/-- The body of analyze_resume_match after its first line: everything below
the job_keywords assignment depends on the job text only through the
extracted profile. -/
def analyze_with_profile (resume_text : Text) (job_keywords : JobKeywords) : MatchResult :=
  let resume_lower := lowerText resume_text
  let tAcc := techLoop resume_lower job_keywords.technical ⟨0, 0, [], [], []⟩
  let sAcc := softLoop resume_lower job_keywords.soft_skills ⟨0, 0, [], tAcc.hi⟩
  let iAcc := indLoop resume_lower job_keywords.industry ⟨0, 0, []⟩
  let action_verbs_in_job := job_keywords.action_verbs
  let action_verbs_in_resume := action_verbs_in_job.filter (fun verb => containsSub resume_lower verb)
  let action_verb_score : ℚ :=
    ((action_verbs_in_resume.length : ℚ) / ((max 1 action_verbs_in_job.length : Nat) : ℚ)) * 100
  let numbers_in_resume := (findAllM matchNumberToken resume_text).length
  let quantification_score : Nat := min 100 (numbers_in_resume * 10)
  let irrelevant_content := identify_irrelevant_sections resume_text job_keywords
  let total_possible_importance := tAcc.total + sAcc.total + iAcc.total
  let total_matched_importance := tAcc.matched + sAcc.matched + iAcc.matched
  let base_match_percentage : ℚ :=
    ((total_matched_importance : ℚ) / ((max 1 total_possible_importance : Nat) : ℚ)) * 100
  let action_verb_bonus : ℚ := min 20 (action_verb_score * (0.2 : ℚ))
  let quantification_bonus : ℚ := min 15 ((quantification_score : ℚ) * (0.15 : ℚ))
  let relevance_penalty : Nat := min 10 (irrelevant_content.length * 2)
  let ats_score : ℚ :=
    min 100 (base_match_percentage + action_verb_bonus + quantification_bonus
      - (relevance_penalty : ℚ))
  { technical_matches := tAcc.techMatches
    soft_skill_matches := sAcc.softMatches
    industry_matches := iAcc.indMatches
    missing_high_priority := sAcc.hi
    missing_medium_priority := tAcc.med
    action_verb_score := action_verb_score
    quantification_score := quantification_score
    irrelevant_content := irrelevant_content
    match_percentage := base_match_percentage
    ats_optimization_score := ats_score
    ats_optimization_tips :=
      build_tips sAcc.hi action_verb_score quantification_score irrelevant_content.length }

def analyze_resume_match (resume_text job_description : Text) : MatchResult :=
  analyze_with_profile resume_text (extract_job_keywords job_description)

/-! ### Resume-experience analysis (qa_agent.py, _analyze_resume_experience) -/

structure ResumeExperience where
  technical_skills : List Text
  leadership_experience : List Text
  major_achievements : List Text
  industries_worked : List Text
  company_types : List Text
  years_experience : Nat
  education_level : Text
  certifications : List Text
deriving DecidableEq

def qa_tech_keywords : List Text :=
  [ txt "python", txt "javascript", txt "typescript", txt "react", txt "node.js", txt "fastapi",
    txt "aws", txt "gcp", txt "docker", txt "kubernetes", txt "postgresql", txt "mongodb",
    txt "machine learning", txt "ai", txt "llm", txt "api", txt "microservices", txt "agile" ]

def qa_leadership_keywords : List Text :=
  [ txt "led", txt "managed", txt "mentored", txt "founded", txt "architected", txt "designed",
    txt "team lead", txt "senior", txt "principal", txt "director" ]

/-- qa_agent._analyze_resume_experience.  An empty resume text returns the
empty dict in the source, modelled as none. -/
def analyze_resume_experience (resume_text : Text) : Option ResumeExperience :=
  if resume_text.isEmpty then none
  else
    let resume_lower := lowerText resume_text
    let technical_skills := qa_tech_keywords.filter (fun s => containsSub resume_lower s)
    let leadership_experience := qa_leadership_keywords.filter (fun k => containsSub resume_lower k)
    let years_experience : Nat :=
      if containsSub resume_lower (txt "5+ years") || containsSub resume_lower (txt "5 years") then 5
      else if containsSub resume_lower (txt "3+ years") || containsSub resume_lower (txt "4+ years") then 3
      else 0
    let education_level : Text :=
      if containsSub resume_lower (txt "master") || containsSub resume_lower (txt "mba") then txt "master"
      else if containsSub resume_lower (txt "phd") || containsSub resume_lower (txt "doctorate") then txt "phd"
      else txt "bachelor"
    let company_types : List Text :=
      (if containsSub resume_lower (txt "startup") || containsSub resume_lower (txt "founding") then
        [txt "startup"] else []) ++
      (if containsSub resume_lower (txt "enterprise") || containsSub resume_lower (txt "corporation")
          || containsSub resume_lower (txt "fortune") then
        [txt "enterprise"] else [])
    some { technical_skills := technical_skills
           leadership_experience := leadership_experience
           major_achievements := []
           industries_worked := []
           company_types := company_types
           years_experience := years_experience
           education_level := education_level
           certifications := [] }

/-! ### Auxiliary accessors used by the theorems -/

/-- Ordered association-list lookup; the Python dict access used on the
profile maps (insertion-ordered, keys unique). -/
def lookupKw {β : Type} (name : Text) : List (Text × β) → Option β
  | [] => none
  | kv :: rest => if kv.1 == name then some kv.2 else lookupKw name rest

/-- The importance the job profile assigns to a technical term, zero when
the term is absent from the profile. -/
def importance_of_tech (jk : JobKeywords) (name : Text) : Nat :=
  match lookupKw name jk.technical with
  | some d => d.importance
  | none => 0

/-- A technical job keyword none of whose variants occurs in the lowered
resume text: the negation of keyword_found in the source loop. -/
def tech_unmatched (resume_lower : Text) (kv : Text × TechKw) : Bool :=
  (matched_variations_of resume_lower kv.2.variations).isEmpty

/-- A soft-skill job keyword none of whose patterns occurs in the lowered
resume text. -/
def soft_unmatched (resume_lower : Text) (kv : Text × SoftKw) : Bool :=
  !(kv.2.patterns.any (fun p => containsSub resume_lower p))

/-- An industry category that is context-based and whose context terms hit
the lowered resume text. -/
def ind_matched (resume_lower : Text) (kv : Text × IndKw) : Bool :=
  three_context_categories.contains kv.1 &&
    (context_terms kv.1).any (fun t => containsSub resume_lower t)

/-- Modelled from the spec: the spec sentence for the resume analyzer claims
a last-match-wins education classification, in which the matching trigger
occurring last in the text decides the level.  This definition implements
those words (it is not in the code; the code uses an if/elif chain) so that
the two can be compared.  It scans positions left to right and lets every
trigger found overwrite the level, so the last one wins. -/
def spec_last_match_education (resume_text : Text) : Text :=
  go (lowerText resume_text) (txt "bachelor")
where
  go : Text → Text → Text
  | [], level => level
  | s@(_ :: rest), level =>
    let level1 :=
      if (txt "master").isPrefixOf s || (txt "mba").isPrefixOf s then txt "master"
      else if (txt "phd").isPrefixOf s || (txt "doctorate").isPrefixOf s then txt "phd"
      else level
    go rest level1

/-! ## Lemma layer: substring counting -/

theorem countOccAux_eq_zero_of_lt (pat : Text) :
    ∀ (t : Text) (skip : Nat), t.length < pat.length → countOccAux pat t skip = 0 := by
  intro t
  induction t with
  | nil => intro skip _; rfl
  | cons c rest ih =>
    intro skip h
    have hrest : rest.length < pat.length := by
      simp only [List.length_cons] at h; omega
    cases skip with
    | succ n => exact ih n hrest
    | zero =>
      have hnp : ¬ (pat.isPrefixOf (c :: rest) = true) := by
        intro hb
        have hp : pat <+: c :: rest := List.isPrefixOf_iff_prefix.mp hb
        exact absurd hp.length_le (not_le.mpr h)
      simp only [countOccAux, if_neg hnp]
      exact ih 0 hrest

theorem countOccAux_append_le (pat : Text) :
    ∀ (t s : Text) (skip : Nat), countOccAux pat t skip ≤ countOccAux pat (t ++ s) skip := by
  intro t
  induction t with
  | nil => intro s skip; exact Nat.zero_le _
  | cons c rest ih =>
    intro s skip
    cases skip with
    | succ n => exact ih s n
    | zero =>
      by_cases hshort : (c :: rest).length < pat.length
      · rw [countOccAux_eq_zero_of_lt pat (c :: rest) 0 hshort]
        exact Nat.zero_le _
      · push_neg at hshort
        have hiff : pat.isPrefixOf (c :: (rest ++ s)) = pat.isPrefixOf (c :: rest) := by
          cases hcase : pat.isPrefixOf (c :: rest) with
          | true =>
            refine List.isPrefixOf_iff_prefix.mpr ?_
            exact (List.isPrefixOf_iff_prefix.mp hcase).trans
              (show (c :: rest) <+: c :: (rest ++ s) from List.prefix_append (c :: rest) s)
          | false =>
            by_contra hb
            have hb2 : pat.isPrefixOf (c :: (rest ++ s)) = true := by
              revert hb; cases pat.isPrefixOf (c :: (rest ++ s)) <;> simp
            have hpre : pat <+: c :: (rest ++ s) := List.isPrefixOf_iff_prefix.mp hb2
            have hpre2 : pat <+: c :: rest := by
              rw [List.prefix_iff_eq_take] at hpre
              rw [List.prefix_iff_eq_take]
              calc pat = (c :: (rest ++ s)).take pat.length := hpre
                _ = ((c :: rest) ++ s).take pat.length := rfl
                _ = (c :: rest).take pat.length := List.take_append_of_le_length hshort
            rw [List.isPrefixOf_iff_prefix.mpr hpre2] at hcase
            cases hcase
        show countOccAux pat (c :: rest) 0 ≤ countOccAux pat (c :: (rest ++ s)) 0
        simp only [countOccAux, hiff]
        cases hcase : pat.isPrefixOf (c :: rest) with
        | true =>
          simp only [if_pos rfl]
          exact Nat.add_le_add_left (ih s (pat.length - 1)) 1
        | false =>
          simp only [Bool.false_eq_true, if_false]
          exact ih s 0

/-- Appending text never decreases a substring count. -/
theorem countOcc_le_append (pat t s : Text) : countOcc pat t ≤ countOcc pat (t ++ s) := by
  unfold countOcc
  by_cases he : pat.isEmpty
  · simp [he, List.length_append]
  · simp only [he, Bool.false_eq_true, if_false]
    exact countOccAux_append_le pat t s 0

theorem containsSub_append (pat t s : Text) (h : containsSub t pat = true) :
    containsSub (t ++ s) pat = true := by
  unfold containsSub at h ⊢
  rw [decide_eq_true_iff] at h ⊢
  exact lt_of_lt_of_le h (countOcc_le_append pat t s)

/-- A positive count yields an actual occurrence inside the text. -/
theorem countOccAux_pos_infix (pat : Text) :
    ∀ (t : Text) (skip : Nat), 0 < countOccAux pat t skip → pat <:+: t := by
  intro t
  induction t with
  | nil => intro skip h; cases h
  | cons c rest ih =>
    intro skip h
    cases skip with
    | succ n => exact List.infix_cons (ih n h)
    | zero =>
      by_cases hp : pat.isPrefixOf (c :: rest) = true
      · exact (List.isPrefixOf_iff_prefix.mp hp).isInfix
      · simp only [countOccAux, if_neg hp] at h
        exact List.infix_cons (ih 0 h)

/-- In an all-whitespace text, no pattern holding a non-whitespace character
occurs. -/
theorem countOcc_eq_zero_of_ws (pat t : Text)
    (ht : ∀ c ∈ t, c.isWhitespace = true)
    (hp : pat.any (fun c => !c.isWhitespace) = true) : countOcc pat t = 0 := by
  obtain ⟨c, hcmem, hcw⟩ := List.any_eq_true.mp hp
  have hne : pat.isEmpty = false := by
    cases pat with
    | nil => cases hcmem
    | cons a l => rfl
  unfold countOcc
  rw [hne]
  simp only [Bool.false_eq_true, if_false]
  by_contra hzero
  have hpos : 0 < countOccAux pat t 0 := Nat.pos_of_ne_zero hzero
  have hinf : pat <:+: t := countOccAux_pos_infix pat t 0 hpos
  have : c ∈ t := hinf.subset hcmem
  have := ht c this
  simp [this] at hcw

theorem containsSub_eq_false_of_ws (pat t : Text)
    (ht : ∀ c ∈ t, c.isWhitespace = true)
    (hp : pat.any (fun c => !c.isWhitespace) = true) : containsSub t pat = false := by
  unfold containsSub
  rw [countOcc_eq_zero_of_ws pat t ht hp]
  simp

theorem lowerText_append (t s : Text) :
    lowerText (t ++ s) = lowerText t ++ lowerText s := List.map_append _ t s

/-- toLower maps whitespace to whitespace. -/
theorem isWhitespace_toLower (c : Char) (h : c.isWhitespace = true) :
    (Char.toLower c).isWhitespace = true := by
  simp only [Char.isWhitespace, Bool.or_eq_true, decide_eq_true_eq] at h
  rcases h with ((h | h) | h) | h <;> subst h <;> decide

theorem lowerText_ws (t : Text) (ht : ∀ c ∈ t, c.isWhitespace = true) :
    ∀ c ∈ lowerText t, c.isWhitespace = true := by
  intro c hc
  obtain ⟨a, ha, rfl⟩ := List.mem_map.mp hc
  exact isWhitespace_toLower a (ht a ha)

/-! ## Lemma layer: keyed filterMap constructions -/

theorem lookupKw_eq_none {β : Type} (name : Text) (l : List (Text × β))
    (h : name ∉ l.map Prod.fst) : lookupKw name l = none := by
  induction l with
  | nil => rfl
  | cons kv rest ih =>
    simp only [List.map_cons, List.mem_cons, not_or] at h
    have hne : (kv.1 == name) = false := by
      simp only [beq_eq_false_iff_ne, ne_eq]
      exact fun he => h.1 (he ▸ rfl)
    simp only [lookupKw, hne, Bool.false_eq_true, if_false]
    exact ih h.2

theorem keys_keyed_filterMap_subset {β γ : Type} (f : Text × β → Option (Text × γ))
    (hkey : ∀ pv q, f pv = some q → q.1 = pv.1) (l : List (Text × β)) (k : Text)
    (h : k ∈ (l.filterMap f).map Prod.fst) : k ∈ l.map Prod.fst := by
  obtain ⟨q, hq, rfl⟩ := List.mem_map.mp h
  obtain ⟨pv, hpv, hf⟩ := List.mem_filterMap.mp hq
  rw [hkey pv q hf]
  exact List.mem_map.mpr ⟨pv, hpv, rfl⟩

theorem lookupKw_keyed_filterMap {β γ : Type} (f : Text × β → Option (Text × γ))
    (hkey : ∀ pv q, f pv = some q → q.1 = pv.1) :
    ∀ (l : List (Text × β)) (name : Text) (v : β),
      (l.map Prod.fst).Nodup → (name, v) ∈ l →
      lookupKw name (l.filterMap f) = (f (name, v)).map Prod.snd := by
  intro l
  induction l with
  | nil => intro name v _ hmem; cases hmem
  | cons kv rest ih =>
    intro name v hnd hmem
    simp only [List.map_cons, List.nodup_cons] at hnd
    rcases List.mem_cons.mp hmem with heq | htail
    · subst heq
      cases hfa : f (name, v) with
      | none =>
        simp only [List.filterMap_cons_none hfa, hfa, Option.map_none']
        exact lookupKw_eq_none name _
          (fun hk => hnd.1 (keys_keyed_filterMap_subset f hkey rest name hk))
      | some q =>
        obtain ⟨q1, d⟩ := q
        have hq1 : q1 = name := hkey (name, v) (q1, d) hfa
        subst hq1
        simp only [List.filterMap_cons_some hfa, hfa, Option.map_some']
        simp [lookupKw]
    · cases hfa : f kv with
      | none =>
        rw [List.filterMap_cons_none hfa]
        exact ih name v hnd.2 htail
      | some q =>
        have hq1 : q.1 = kv.1 := hkey kv q hfa
        have hna : (q.1 == name) = false := by
          rw [hq1]
          simp only [beq_eq_false_iff_ne, ne_eq]
          intro he
          subst he
          exact hnd.1 (List.mem_map.mpr ⟨(kv.1, v), htail, rfl⟩)
        rw [List.filterMap_cons_some hfa]
        simp only [lookupKw, hna, Bool.false_eq_true, if_false]
        exact ih name v hnd.2 htail

theorem mem_keyed_filterMap {β γ : Type} (f : Text × β → Option (Text × γ))
    (hkey : ∀ pv q, f pv = some q → q.1 = pv.1) (l : List (Text × β)) (name : Text) (d : γ) :
    (name, d) ∈ l.filterMap f ↔ ∃ v, (name, v) ∈ l ∧ f (name, v) = some (name, d) := by
  constructor
  · intro h
    obtain ⟨pv, hpv, hf⟩ := List.mem_filterMap.mp h
    have h1 : pv.1 = name := by
      have := hkey pv (name, d) hf
      exact this.symm
    refine ⟨pv.2, ?_, ?_⟩
    · rw [show (name, pv.2) = pv from by rw [← h1]]
      exact hpv
    · rw [show (name, pv.2) = pv from by rw [← h1]]
      exact hf
  · intro ⟨v, hmem, hf⟩
    exact List.mem_filterMap.mpr ⟨(name, v), hmem, hf⟩

/-! ## Lemma layer: loop characterizations for analyze_resume_match -/

theorem techLoop_spec (rl : Text) :
    ∀ (l : List (Text × TechKw)) (acc : TechAcc),
      techLoop rl l acc =
        { total := acc.total + (l.map (fun kv => kv.2.importance)).sum,
          matched := acc.matched +
            ((l.filter (fun kv => !tech_unmatched rl kv)).map (fun kv => kv.2.importance)).sum,
          techMatches := acc.techMatches ++
            (l.filter (fun kv => !tech_unmatched rl kv)).map
              (fun kv => (kv.1, ⟨matched_variations_of rl kv.2.variations, kv.2.importance⟩)),
          hi := acc.hi ++
            (l.filter (fun kv => tech_unmatched rl kv && decide (8 ≤ kv.2.importance))).map Prod.fst,
          med := acc.med ++
            (l.filter (fun kv => tech_unmatched rl kv && decide (kv.2.importance < 8) &&
              decide (5 ≤ kv.2.importance))).map Prod.fst } := by
  intro l
  induction l with
  | nil => intro acc; simp [techLoop]
  | cons kv rest ih =>
    intro acc
    rw [show techLoop rl (kv :: rest) acc = techLoop rl rest (techStep rl acc kv) from rfl, ih]
    by_cases hu : tech_unmatched rl kv = true
    · by_cases h8 : 8 ≤ kv.2.importance
      · simp [techStep, tech_unmatched] at hu
        simp [techStep, tech_unmatched, hu, h8, Nat.not_lt.mpr h8, List.filter_cons,
          List.append_assoc, Nat.add_assoc]
      · by_cases h5 : 5 ≤ kv.2.importance
        · simp [techStep, tech_unmatched] at hu
          simp [techStep, tech_unmatched, hu, h8, h5, Nat.not_le.mp h8, List.filter_cons,
            List.append_assoc, Nat.add_assoc]
        · simp [techStep, tech_unmatched] at hu
          simp [techStep, tech_unmatched, hu, h8, h5, List.filter_cons,
            List.append_assoc, Nat.add_assoc]
    · simp [techStep, tech_unmatched] at hu
      simp [techStep, tech_unmatched, hu, List.filter_cons, List.append_assoc, Nat.add_assoc]

theorem softLoop_spec (rl : Text) :
    ∀ (l : List (Text × SoftKw)) (acc : SoftAcc),
      softLoop rl l acc =
        { total := acc.total + (l.map (fun kv => kv.2.importance)).sum,
          matched := acc.matched +
            ((l.filter (fun kv => !soft_unmatched rl kv)).map (fun kv => kv.2.importance)).sum,
          softMatches := acc.softMatches ++
            (l.filter (fun kv => !soft_unmatched rl kv)).map
              (fun kv => (kv.1, kv.2.importance)),
          hi := acc.hi ++
            (l.filter (fun kv => soft_unmatched rl kv && decide (6 ≤ kv.2.importance))).map
              (fun kv => kv.1 ++ txt " (soft skill)") } := by
  intro l
  induction l with
  | nil => intro acc; simp [softLoop]
  | cons kv rest ih =>
    intro acc
    rw [show softLoop rl (kv :: rest) acc = softLoop rl rest (softStep rl acc kv) from rfl, ih]
    by_cases hf : (kv.2.patterns.any (fun p => containsSub rl p)) = true
    · simp [softStep, soft_unmatched, hf, List.filter_cons, List.append_assoc, Nat.add_assoc]
    · by_cases h6 : 6 ≤ kv.2.importance
      · simp [softStep, soft_unmatched, hf, h6, List.filter_cons, List.append_assoc,
          Nat.add_assoc]
      · simp [softStep, soft_unmatched, hf, h6, List.filter_cons, List.append_assoc,
          Nat.add_assoc]

theorem indLoop_spec (rl : Text) :
    ∀ (l : List (Text × IndKw)) (acc : IndAcc),
      indLoop rl l acc =
        { total := acc.total + (l.map (fun kv => kv.2.importance)).sum,
          matched := acc.matched +
            ((l.filter (fun kv => ind_matched rl kv)).map (fun kv => kv.2.importance)).sum,
          indMatches := acc.indMatches ++
            (l.filter (fun kv => ind_matched rl kv)).map (fun kv => (kv.1, kv.2.importance)) } := by
  intro l
  induction l with
  | nil => intro acc; simp [indLoop]
  | cons kv rest ih =>
    intro acc
    rw [show indLoop rl (kv :: rest) acc = indLoop rl rest (indStep rl acc kv) from rfl, ih]
    by_cases hc : kv.1 ∈ three_context_categories
    · by_cases hm : ((context_terms kv.1).any (fun t => containsSub rl t)) = true
      · simp [indStep, ind_matched, hc, hm, List.filter_cons, List.append_assoc, Nat.add_assoc]
      · simp [indStep, ind_matched, hc, hm, List.filter_cons, List.append_assoc, Nat.add_assoc]
    · simp [indStep, ind_matched, hc, List.filter_cons, List.append_assoc, Nat.add_assoc]

/-! ## Lemma layer: list sums and filters -/

theorem sum_map_filter_le {α : Type} (p : α → Bool) (f : α → Nat) (l : List α) :
    ((l.filter p).map f).sum ≤ (l.map f).sum := by
  induction l with
  | nil => simp
  | cons a rest ih =>
    by_cases hp : p a = true
    · rw [List.filter_cons_of_pos hp]
      simpa using Nat.add_le_add_left ih (f a)
    · rw [List.filter_cons_of_neg (by simpa using hp)]
      simp only [List.map_cons, List.sum_cons]
      exact le_trans ih (Nat.le_add_left _ _)

theorem sum_map_filter_add_le {α : Type} (p : α → Bool) (f : α → Nat) (l : List α) (a : α)
    (ha : a ∈ l) (hpa : p a = false) :
    ((l.filter p).map f).sum + f a ≤ (l.map f).sum := by
  induction l with
  | nil => cases ha
  | cons b rest ih =>
    rcases List.mem_cons.mp ha with heq | htail
    · subst heq
      rw [List.filter_cons_of_neg (by simp [hpa])]
      simp only [List.map_cons, List.sum_cons]
      have := sum_map_filter_le p f rest
      omega
    · by_cases hpb : p b = true
      · rw [List.filter_cons_of_pos hpb]
        simp only [List.map_cons, List.sum_cons]
        have := ih htail
        omega
      · rw [List.filter_cons_of_neg (by simpa using hpb)]
        simp only [List.map_cons, List.sum_cons]
        have := ih htail
        omega

theorem filter_length_mono_of_imp {α : Type} (p q : α → Bool) (l : List α)
    (h : ∀ a ∈ l, p a = true → q a = true) :
    (l.filter p).length ≤ (l.filter q).length := by
  induction l with
  | nil => simp
  | cons a rest ih =>
    have ht := ih (fun b hb => h b (List.mem_cons_of_mem a hb))
    by_cases hp : p a = true
    · rw [List.filter_cons_of_pos hp,
        List.filter_cons_of_pos (h a (List.mem_cons_self a rest) hp)]
      simpa using ht
    · rw [List.filter_cons_of_neg (by simpa using hp)]
      by_cases hq : q a = true
      · rw [List.filter_cons_of_pos hq]
        simp only [List.length_cons]
        omega
      · rw [List.filter_cons_of_neg (by simpa using hq)]
        exact ht

/-! ## Lemma layer: the keyword profile -/

theorem tech_table_nodup : (tech_terms_with_variations.map Prod.fst).Nodup := by decide

theorem soft_table_nodup : (soft_terms_patterns.map Prod.fst).Nodup := by decide

theorem industry_table_nodup : (industry_terms.map Prod.fst).Nodup := by decide

theorem lookupKw_tech_keywords_of (job_lower name : Text) (vars : List Text)
    (hmem : (name, vars) ∈ tech_terms_with_variations) :
    lookupKw name (tech_keywords_of job_lower) =
      (if 0 < total_variant_mentions job_lower vars then
        some ⟨total_variant_mentions job_lower vars, found_variations_of job_lower vars,
          min 10 (total_variant_mentions job_lower vars * 2 +
            (found_variations_of job_lower vars).length)⟩
      else none) := by
  have hfun : tech_keywords_of job_lower =
      tech_terms_with_variations.filterMap (fun pv =>
        if 0 < total_variant_mentions job_lower pv.2 then
          some (pv.1, (⟨total_variant_mentions job_lower pv.2, found_variations_of job_lower pv.2,
            min 10 (total_variant_mentions job_lower pv.2 * 2 +
              (found_variations_of job_lower pv.2).length)⟩ : TechKw))
        else none) := rfl
  have hkey : ∀ (pv : Text × List Text) (q : Text × TechKw),
      (if 0 < total_variant_mentions job_lower pv.2 then
        some (pv.1, (⟨total_variant_mentions job_lower pv.2, found_variations_of job_lower pv.2,
          min 10 (total_variant_mentions job_lower pv.2 * 2 +
            (found_variations_of job_lower pv.2).length)⟩ : TechKw))
      else none) = some q → q.1 = pv.1 := by
    intro pv q hq
    split at hq
    · injection hq with h
      rw [← h]
    · cases hq
  rw [hfun, lookupKw_keyed_filterMap _ hkey tech_terms_with_variations name vars
    tech_table_nodup hmem]
  split
  · rfl
  · rfl

theorem lookupKw_soft_keywords_of (job_lower name : Text) (pats : List Text)
    (hmem : (name, pats) ∈ soft_terms_patterns) :
    lookupKw name (soft_keywords_of job_lower) =
      (if 0 < soft_mentions_of job_lower pats then
        some ⟨soft_mentions_of job_lower pats,
          pats.filter (fun p => containsSub job_lower p),
          min 8 (soft_mentions_of job_lower pats * 2)⟩
      else none) := by
  have hfun : soft_keywords_of job_lower =
      soft_terms_patterns.filterMap (fun sp =>
        if 0 < soft_mentions_of job_lower sp.2 then
          some (sp.1, (⟨soft_mentions_of job_lower sp.2,
            sp.2.filter (fun p => containsSub job_lower p),
            min 8 (soft_mentions_of job_lower sp.2 * 2)⟩ : SoftKw))
        else none) := rfl
  have hkey : ∀ (sp : Text × List Text) (q : Text × SoftKw),
      (if 0 < soft_mentions_of job_lower sp.2 then
        some (sp.1, (⟨soft_mentions_of job_lower sp.2,
          sp.2.filter (fun p => containsSub job_lower p),
          min 8 (soft_mentions_of job_lower sp.2 * 2)⟩ : SoftKw))
      else none) = some q → q.1 = sp.1 := by
    intro sp q hq
    split at hq
    · injection hq with h
      rw [← h]
    · cases hq
  rw [hfun, lookupKw_keyed_filterMap _ hkey soft_terms_patterns name pats
    soft_table_nodup hmem]
  split
  · rfl
  · rfl

theorem lookupKw_industry_keywords_of (job_lower name : Text) (terms : List Text)
    (hmem : (name, terms) ∈ industry_terms) :
    lookupKw name (industry_keywords_of job_lower) =
      (if 0 < soft_mentions_of job_lower terms then
        some ⟨soft_mentions_of job_lower terms, min 6 (soft_mentions_of job_lower terms * 2)⟩
      else none) := by
  have hfun : industry_keywords_of job_lower =
      industry_terms.filterMap (fun ct =>
        if 0 < soft_mentions_of job_lower ct.2 then
          some (ct.1, (⟨soft_mentions_of job_lower ct.2,
            min 6 (soft_mentions_of job_lower ct.2 * 2)⟩ : IndKw))
        else none) := rfl
  have hkey : ∀ (ct : Text × List Text) (q : Text × IndKw),
      (if 0 < soft_mentions_of job_lower ct.2 then
        some (ct.1, (⟨soft_mentions_of job_lower ct.2,
          min 6 (soft_mentions_of job_lower ct.2 * 2)⟩ : IndKw))
      else none) = some q → q.1 = ct.1 := by
    intro ct q hq
    split at hq
    · injection hq with h
      rw [← h]
    · cases hq
  rw [hfun, lookupKw_keyed_filterMap _ hkey industry_terms name terms
    industry_table_nodup hmem]
  split
  · rfl
  · rfl

theorem mem_tech_keywords_spec (job_lower : Text) :
    ∀ kv ∈ tech_keywords_of job_lower,
      kv.1 ∈ tech_terms_with_variations.map Prod.fst ∧
      0 < kv.2.mentions ∧ kv.2.importance ≤ 10 := by
  intro kv h
  obtain ⟨pv, hpv, hf⟩ := List.mem_filterMap.mp h
  simp only [tech_keywords_of] at hf
  split at hf
  · injection hf with h2
    rw [← h2]
    refine ⟨List.mem_map.mpr ⟨pv, hpv, rfl⟩, ?_, ?_⟩
    · assumption
    · exact min_le_left _ _
  · cases hf

theorem mem_soft_keywords_spec (job_lower : Text) :
    ∀ kv ∈ soft_keywords_of job_lower,
      kv.1 ∈ soft_terms_patterns.map Prod.fst ∧
      0 < kv.2.mentions ∧ kv.2.importance ≤ 8 := by
  intro kv h
  obtain ⟨pv, hpv, hf⟩ := List.mem_filterMap.mp h
  simp only [soft_keywords_of] at hf
  split at hf
  · injection hf with h2
    rw [← h2]
    refine ⟨List.mem_map.mpr ⟨pv, hpv, rfl⟩, ?_, ?_⟩
    · assumption
    · exact min_le_left _ _
  · cases hf

theorem mem_industry_keywords_spec (job_lower : Text) :
    ∀ kv ∈ industry_keywords_of job_lower,
      kv.1 ∈ industry_terms.map Prod.fst ∧
      0 < kv.2.mentions ∧ kv.2.importance = min 6 (kv.2.mentions * 2) ∧
      kv.2.importance ≤ 6 := by
  intro kv h
  obtain ⟨pv, hpv, hf⟩ := List.mem_filterMap.mp h
  simp only [industry_keywords_of] at hf
  split at hf
  · injection hf with h2
    rw [← h2]
    refine ⟨List.mem_map.mpr ⟨pv, hpv, rfl⟩, ?_, rfl, ?_⟩
    · assumption
    · exact min_le_left _ _
  · cases hf

/-! ## Lemma layer: tip generation -/

theorem ne_of_head_mismatch (s t z : Text) (hs : s ≠ []) (hh : s.head? ≠ t.head?) :
    s ++ z ≠ t := by
  intro h
  apply hh
  rw [← h]
  cases s with
  | nil => exact absurd rfl hs
  | cons a l => rfl

theorem build_tips_spec (missing_high : List Text) (av : ℚ) (q : Nat) (irr : Nat) :
    (build_tips missing_high av q irr).length ≤ 4 ∧
    ((high_priority_tip_text ++ joinSep (txt ", ") (missing_high.take 3)) ∈
        build_tips missing_high av q irr ↔ missing_high ≠ []) ∧
    (improve_tip_text ∈ build_tips missing_high av q irr ↔ av < 50) ∧
    (quantify_tip_text ∈ build_tips missing_high av q irr ↔ q < 40) ∧
    (remove_tip_text ∈ build_tips missing_high av q irr ↔ 2 < irr) ∧
    (missing_high ≠ [] → av < 50 →
      ∃ rest, build_tips missing_high av q irr =
        (high_priority_tip_text ++ joinSep (txt ", ") (missing_high.take 3)) ::
          improve_tip_text :: rest) := by
  have hHI : ∀ z : Text, high_priority_tip_text ++ z ≠ improve_tip_text := fun z =>
    ne_of_head_mismatch _ _ z (by decide) (by decide)
  have hHQ : ∀ z : Text, high_priority_tip_text ++ z ≠ quantify_tip_text := fun z =>
    ne_of_head_mismatch _ _ z (by decide) (by decide)
  have hHR : ∀ z : Text, high_priority_tip_text ++ z ≠ remove_tip_text := fun z =>
    ne_of_head_mismatch _ _ z (by decide) (by decide)
  have hHI2 : ∀ z : Text, improve_tip_text ≠ high_priority_tip_text ++ z := fun z => (hHI z).symm
  have hHQ2 : ∀ z : Text, quantify_tip_text ≠ high_priority_tip_text ++ z := fun z => (hHQ z).symm
  have hHR2 : ∀ z : Text, remove_tip_text ≠ high_priority_tip_text ++ z := fun z => (hHR z).symm
  have hIQ : improve_tip_text ≠ quantify_tip_text := by decide
  have hIR : improve_tip_text ≠ remove_tip_text := by decide
  have hQR : quantify_tip_text ≠ remove_tip_text := by decide
  have hQI : quantify_tip_text ≠ improve_tip_text := hIQ.symm
  have hRI : remove_tip_text ≠ improve_tip_text := hIR.symm
  have hRQ : remove_tip_text ≠ quantify_tip_text := hQR.symm
  by_cases h1 : 0 < missing_high.length <;>
    by_cases h2 : av < 50 <;>
      by_cases h3 : q < 40 <;>
        by_cases h4 : 2 < irr <;>
          simp [build_tips, h1, h2, h3, h4, hHI, hHQ, hHR, hHI2, hHQ2, hHR2,
            hIQ, hIR, hQR, hQI, hRI, hRQ, List.length_pos, ← List.length_pos]

/-! ## Lemma layer: behaviour on whitespace-only input -/

theorem ws_not_digit (c : Char) (h : c.isWhitespace = true) : c.isDigit = false := by
  simp only [Char.isWhitespace, Bool.or_eq_true, decide_eq_true_eq] at h
  rcases h with ((h | h) | h) | h <;> subst h <;> decide

theorem takeWhile_isDigit_ws (u : Text) (hu : ∀ c ∈ u, c.isWhitespace = true) :
    u.takeWhile Char.isDigit = [] := by
  cases u with
  | nil => rfl
  | cons c r =>
    have := ws_not_digit c (hu c (List.mem_cons_self c r))
    simp [List.takeWhile_cons, this]

theorem matchNumPat_ws (suffix : Text) (optS : Bool) (u : Text)
    (hu : ∀ c ∈ u, c.isWhitespace = true) : matchNumPat suffix optS u = none := by
  simp [matchNumPat, takeWhile_isDigit_ws u hu]

theorem matchNumberToken_ws (u : Text)
    (hu : ∀ c ∈ u, c.isWhitespace = true) : matchNumberToken u = none := by
  simp [matchNumberToken, takeWhile_isDigit_ws u hu]

theorem isPrefixOf_ws_false (hd : Char) (tl : Text) (hhd : hd.isWhitespace = false)
    (u : Text) (hu : ∀ c ∈ u, c.isWhitespace = true) : (hd :: tl).isPrefixOf u = false := by
  cases u with
  | nil => rfl
  | cons c r =>
    have hc := hu c (List.mem_cons_self c r)
    have hne : (hd == c) = false := by
      simp only [beq_eq_false_iff_ne, ne_eq]
      intro he
      subst he
      rw [hc] at hhd
      cases hhd
    simp [List.isPrefixOf, hne]

theorem matchLitWsNum_ws (hd : Char) (tl : Text) (hhd : hd.isWhitespace = false)
    (u : Text) (hu : ∀ c ∈ u, c.isWhitespace = true) : matchLitWsNum (hd :: tl) u = none := by
  simp [matchLitWsNum, isPrefixOf_ws_false hd tl hhd u hu]

theorem matchScaleToNum_ws (u : Text)
    (hu : ∀ c ∈ u, c.isWhitespace = true) : matchScaleToNum u = none := by
  have h : (txt "scale") = 's' :: txt "cale" := rfl
  simp [matchScaleToNum, h, isPrefixOf_ws_false 's' (txt "cale") (by decide) u hu]

theorem findAllAux_ws_nil (m : Text → Option (Text × Text))
    (hm : ∀ u : Text, (∀ c ∈ u, c.isWhitespace = true) → m u = none) :
    ∀ (fuel : Nat) (t : Text), (∀ c ∈ t, c.isWhitespace = true) → findAllAux m fuel t = [] := by
  intro fuel
  induction fuel with
  | zero => intro t _; rfl
  | succ n ih =>
    intro t ht
    cases t with
    | nil => rfl
    | cons c rest =>
      have hrest : ∀ x ∈ rest, x.isWhitespace = true :=
        fun x hx => ht x (List.mem_cons_of_mem c hx)
      simp only [findAllAux, hm (c :: rest) ht]
      exact ih rest hrest

theorem findAllM_ws_nil (m : Text → Option (Text × Text))
    (hm : ∀ u : Text, (∀ c ∈ u, c.isWhitespace = true) → m u = none)
    (t : Text) (ht : ∀ c ∈ t, c.isWhitespace = true) : findAllM m t = [] :=
  findAllAux_ws_nil m hm t.length t ht

/-- On whitespace-only job text the extracted profile is completely empty. -/
theorem extract_job_keywords_ws (job_text : Text)
    (hj : ∀ c ∈ job_text, c.isWhitespace = true) :
    extract_job_keywords job_text = ⟨[], [], [], [], [], 0⟩ := by
  have hjw : ∀ c ∈ lowerText job_text, c.isWhitespace = true := lowerText_ws job_text hj
  have hcf : ∀ pat : Text, pat.any (fun c => !c.isWhitespace) = true →
      containsSub (lowerText job_text) pat = false :=
    fun pat hp => containsSub_eq_false_of_ws pat _ hjw hp
  have hc0 : ∀ pat : Text, pat.any (fun c => !c.isWhitespace) = true →
      countOcc pat (lowerText job_text) = 0 :=
    fun pat hp => countOcc_eq_zero_of_ws pat _ hjw hp
  have htech : tech_keywords_of (lowerText job_text) = [] := by
    unfold tech_keywords_of
    rw [List.filterMap_eq_nil_iff]
    intro pv hpv
    have htot : total_variant_mentions (lowerText job_text) pv.2 = 0 := by
      apply List.sum_eq_zero
      intro x hx
      obtain ⟨v, hv, rfl⟩ := List.mem_map.mp hx
      exact hc0 (lowerText v)
        (by
          have : ∀ pv ∈ tech_terms_with_variations, ∀ v ∈ pv.2,
              ((lowerText v).any (fun c => !c.isWhitespace)) = true := by decide
          exact this pv hpv v hv)
    simp [htot]
  have hsoftm : ∀ (pats : List Text), (∀ p ∈ pats, p.any (fun c => !c.isWhitespace) = true) →
      soft_mentions_of (lowerText job_text) pats = 0 := by
    intro pats hpats
    apply List.sum_eq_zero
    intro x hx
    obtain ⟨p, hp, rfl⟩ := List.mem_map.mp hx
    simp [hcf p (hpats p hp)]
  have hsoft : soft_keywords_of (lowerText job_text) = [] := by
    unfold soft_keywords_of
    rw [List.filterMap_eq_nil_iff]
    intro sp hsp
    have : soft_mentions_of (lowerText job_text) sp.2 = 0 := by
      apply hsoftm
      intro p hp
      have hall : ∀ sp ∈ soft_terms_patterns, ∀ p ∈ sp.2,
          (p.any (fun c => !c.isWhitespace)) = true := by decide
      exact hall sp hsp p hp
    simp [this]
  have hind : industry_keywords_of (lowerText job_text) = [] := by
    unfold industry_keywords_of
    rw [List.filterMap_eq_nil_iff]
    intro ct hct
    have : soft_mentions_of (lowerText job_text) ct.2 = 0 := by
      apply hsoftm
      intro p hp
      have hall : ∀ ct ∈ industry_terms, ∀ p ∈ ct.2,
          (p.any (fun c => !c.isWhitespace)) = true := by decide
      exact hall ct hct p hp
    simp [this]
  have hverbs : extract_action_verbs job_text = [] := by
    unfold extract_action_verbs
    rw [List.filter_eq_nil_iff]
    intro v hv
    have hall : ∀ v ∈ strong_action_verbs, (v.any (fun c => !c.isWhitespace)) = true := by decide
    simp [hcf v (hall v hv)]
  have hmet : extract_metrics_context job_text = [] := by
    simp only [extract_metrics_context]
    have h1 := findAllM_ws_nil (matchNumPat (txt "year") true)
      (matchNumPat_ws (txt "year") true) _ hjw
    have h2 := findAllM_ws_nil (matchNumPat (txt "million") false)
      (matchNumPat_ws (txt "million") false) _ hjw
    have h3 := findAllM_ws_nil (matchNumPat (txt "billion") false)
      (matchNumPat_ws (txt "billion") false) _ hjw
    have h4 := findAllM_ws_nil (matchNumPat (txt "%") false)
      (matchNumPat_ws (txt "%") false) _ hjw
    have h5 := findAllM_ws_nil (matchNumPat (txt "user") true)
      (matchNumPat_ws (txt "user") true) _ hjw
    have h6 := findAllM_ws_nil (matchNumPat (txt "request") true)
      (matchNumPat_ws (txt "request") true) _ hjw
    have h7 := findAllM_ws_nil (matchNumPat (txt "transaction") true)
      (matchNumPat_ws (txt "transaction") true) _ hjw
    have h8 := findAllM_ws_nil (matchNumPat (txt "customer") true)
      (matchNumPat_ws (txt "customer") true) _ hjw
    have h9 := findAllM_ws_nil matchScaleToNum matchScaleToNum_ws _ hjw
    have h10 := findAllM_ws_nil (matchLitWsNum (txt "handle"))
      (fun u hu => matchLitWsNum_ws 'h' (txt "andle") (by decide) u hu) _ hjw
    have h11 := findAllM_ws_nil (matchLitWsNum (txt "support"))
      (fun u hu => matchLitWsNum_ws 's' (txt "upport") (by decide) u hu) _ hjw
    have hctx : metrics_context_words.filter
        (fun c => containsSub (lowerText job_text) c) = [] := by
      rw [List.filter_eq_nil_iff]
      intro w hw
      have hall : ∀ w ∈ metrics_context_words,
          (w.any (fun c => !c.isWhitespace)) = true := by decide
      simp [hcf w (hall w hw)]
    rw [h1, h2, h3, h4, h5, h6, h7, h8, h9, h10, h11, hctx]
    rfl
  simp only [extract_job_keywords]
  rw [htech, hsoft, hind, hverbs, hmet]
  rfl

/-! ## Lemma layer: the missing-keyword lists -/

theorem missing_high_eq (resume_text job_description : Text) :
    (analyze_resume_match resume_text job_description).missing_high_priority =
      ((extract_job_keywords job_description).technical.filter
        (fun kv => tech_unmatched (lowerText resume_text) kv &&
          decide (8 ≤ kv.2.importance))).map Prod.fst ++
      ((extract_job_keywords job_description).soft_skills.filter
        (fun kv => soft_unmatched (lowerText resume_text) kv &&
          decide (6 ≤ kv.2.importance))).map (fun kv => kv.1 ++ txt " (soft skill)") := by
  have e : (analyze_resume_match resume_text job_description).missing_high_priority =
      (softLoop (lowerText resume_text) (extract_job_keywords job_description).soft_skills
        ⟨0, 0, [], (techLoop (lowerText resume_text)
          (extract_job_keywords job_description).technical ⟨0, 0, [], [], []⟩).hi⟩).hi := rfl
  rw [e, softLoop_spec, techLoop_spec]
  simp

theorem missing_med_eq (resume_text job_description : Text) :
    (analyze_resume_match resume_text job_description).missing_medium_priority =
      ((extract_job_keywords job_description).technical.filter
        (fun kv => tech_unmatched (lowerText resume_text) kv &&
          decide (kv.2.importance < 8) && decide (5 ≤ kv.2.importance))).map Prod.fst := by
  have e : (analyze_resume_match resume_text job_description).missing_medium_priority =
      (techLoop (lowerText resume_text)
        (extract_job_keywords job_description).technical ⟨0, 0, [], [], []⟩).med := rfl
  rw [e, techLoop_spec]
  simp

/-! ## Claim theorems -/

/-- Claim C1, amended: the ATS optimization score equals
min(100, base_match_percentage + min(20, action_verb_score*0.2)
+ min(15, quantification_score*0.15) - min(10, 2*len(irrelevant_content))).
It is capped above at 100 but, contrary to the claim, it is not clamped
below at 0. -/
theorem ats_score_min_formula : ∀ (resume_text job_description : Text),
    (analyze_resume_match resume_text job_description).ats_optimization_score ≤ 100 ∧
    (analyze_resume_match resume_text job_description).ats_optimization_score =
      min 100 ((analyze_resume_match resume_text job_description).match_percentage
        + min 20 ((analyze_resume_match resume_text job_description).action_verb_score * (0.2 : ℚ))
        + min 15 (((analyze_resume_match resume_text job_description).quantification_score : ℚ)
            * (0.15 : ℚ))
        - ((min 10 ((analyze_resume_match resume_text job_description).irrelevant_content.length
            * 2) : Nat) : ℚ)) := by
  intro rt jd
  refine ⟨?_, rfl⟩
  show min (100 : ℚ) _ ≤ 100
  exact min_le_left _ _

/-- Claim C1 counterexample: a job text with no recognized keywords and a
resume full of obsolete technologies gets an irrelevant-content penalty with
nothing to offset it, and the ATS optimization score is negative, so it does
not lie in [0, 100]. -/
theorem ats_score_negative_example :
    (analyze_resume_match (txt "flash silverlight jquery internet explorer")
      (txt "zzzz")).ats_optimization_score < 0 := by
  have h : (analyze_resume_match (txt "flash silverlight jquery internet explorer")
      (txt "zzzz")).ats_optimization_score =
      min 100 ((((0 : Nat) : ℚ) / ((1 : Nat) : ℚ)) * 100
        + min 20 (((((0 : Nat) : ℚ) / ((1 : Nat) : ℚ)) * 100) * (0.2 : ℚ))
        + min 15 (((0 : Nat) : ℚ) * (0.15 : ℚ))
        - ((8 : Nat) : ℚ)) := rfl
  rw [h]
  norm_num [min_def]

/-- Claim C2 counterexample: on empty input the job-description analyzer
does not fail with InvalidInputError (no such validation exists anywhere in
the code); it returns an ordinary empty profile, and the match scorer on
whitespace-only texts returns an ordinary result. -/
theorem analyzers_return_on_empty_input :
    extract_job_keywords (txt "") = ⟨[], [], [], [], [], 0⟩ ∧
    (analyze_resume_match (txt " ") (txt " ")).missing_high_priority = [] ∧
    (analyze_resume_match (txt " ") (txt " ")).quantification_score = 0 := by
  refine ⟨by decide, by decide, by decide⟩

/-- Claim C2, amended: the analyzers perform no input validation at all.
On empty or whitespace-only input, extract_job_keywords returns a profile
with no keywords and total importance 0, and analyze_resume_match returns a
normal MatchResult with empty matches, empty missing lists, zero scores and
no tips about keywords. -/
theorem analyzers_no_validation_on_whitespace (job_text resume_text : Text)
    (hj : ∀ c ∈ job_text, c.isWhitespace = true)
    (hr : ∀ c ∈ resume_text, c.isWhitespace = true) :
    extract_job_keywords job_text = ⟨[], [], [], [], [], 0⟩ ∧
    (analyze_resume_match resume_text job_text).technical_matches = [] ∧
    (analyze_resume_match resume_text job_text).missing_high_priority = [] ∧
    (analyze_resume_match resume_text job_text).missing_medium_priority = [] ∧
    (analyze_resume_match resume_text job_text).irrelevant_content = [] ∧
    (analyze_resume_match resume_text job_text).quantification_score = 0 ∧
    (analyze_resume_match resume_text job_text).action_verb_score = 0 ∧
    (analyze_resume_match resume_text job_text).match_percentage = 0 ∧
    (analyze_resume_match resume_text job_text).ats_optimization_score = 0 := by
  have hprof := extract_job_keywords_ws job_text hj
  have hana : analyze_resume_match resume_text job_text =
      analyze_with_profile resume_text (⟨[], [], [], [], [], 0⟩ : JobKeywords) := by
    rw [show analyze_resume_match resume_text job_text =
      analyze_with_profile resume_text (extract_job_keywords job_text) from rfl, hprof]
  have hrw : ∀ c ∈ lowerText resume_text, c.isWhitespace = true := lowerText_ws resume_text hr
  have hcr : ∀ pat : Text, pat.any (fun c => !c.isWhitespace) = true →
      containsSub (lowerText resume_text) pat = false :=
    fun pat hp => containsSub_eq_false_of_ws pat _ hrw hp
  have hq0 : findAllM matchNumberToken resume_text = [] :=
    findAllM_ws_nil matchNumberToken matchNumberToken_ws resume_text hr
  have hirr : identify_irrelevant_sections resume_text (⟨[], [], [], [], [], 0⟩ : JobKeywords)
      = [] := by
    have hsen : ([txt "senior", txt "lead", txt "5+ years"].any
        (fun term => containsSub
          (reprJobKeywords (⟨[], [], [], [], [], 0⟩ : JobKeywords)) term)) = false := by decide
    have ho1 : containsSub (lowerText resume_text) (txt "flash") = false := hcr _ (by decide)
    have ho2 : containsSub (lowerText resume_text) (txt "silverlight") = false :=
      hcr _ (by decide)
    have ho3 : containsSub (lowerText resume_text) (txt "internet explorer") = false :=
      hcr _ (by decide)
    have ho4 : containsSub (lowerText resume_text) (txt "jquery") = false := hcr _ (by decide)
    have ho5 : containsSub (lowerText resume_text) (txt "php4") = false := hcr _ (by decide)
    simp [identify_irrelevant_sections, hsen, personal_interests, outdated_tech_list,
      ho1, ho2, ho3, ho4, ho5]
  refine ⟨hprof, ?_, ?_, ?_, ?_, ?_, ?_, ?_, ?_⟩
  · rw [hana]; rfl
  · rw [hana]; rfl
  · rw [hana]; rfl
  · rw [hana]
    exact hirr
  · rw [hana]
    have e : (analyze_with_profile resume_text (⟨[], [], [], [], [], 0⟩ :
        JobKeywords)).quantification_score =
        min 100 ((findAllM matchNumberToken resume_text).length * 10) := rfl
    rw [e, hq0]
    simp
  · rw [hana]
    have e : (analyze_with_profile resume_text (⟨[], [], [], [], [], 0⟩ :
        JobKeywords)).action_verb_score =
        (((0 : Nat) : ℚ) / ((1 : Nat) : ℚ)) * 100 := rfl
    rw [e]
    norm_num
  · rw [hana]
    have e : (analyze_with_profile resume_text (⟨[], [], [], [], [], 0⟩ :
        JobKeywords)).match_percentage =
        (((0 : Nat) : ℚ) / ((1 : Nat) : ℚ)) * 100 := rfl
    rw [e]
    norm_num
  · rw [hana]
    have e : (analyze_with_profile resume_text (⟨[], [], [], [], [], 0⟩ :
        JobKeywords)).ats_optimization_score =
        min 100 ((((0 : Nat) : ℚ) / ((1 : Nat) : ℚ)) * 100
          + min 20 (((((0 : Nat) : ℚ) / ((1 : Nat) : ℚ)) * 100) * (0.2 : ℚ))
          + min 15 (((min 100 ((findAllM matchNumberToken resume_text).length * 10) : Nat) : ℚ)
              * (0.15 : ℚ))
          - ((min 10 ((identify_irrelevant_sections resume_text
              (⟨[], [], [], [], [], 0⟩ : JobKeywords)).length * 2) : Nat) : ℚ)) := rfl
    rw [e, hq0, hirr]
    norm_num [min_def]

/-- Claim C2 witness: the amended theorem applied to concrete whitespace
texts. -/
theorem analyzers_no_validation_witness :
    extract_job_keywords (txt "  ") = ⟨[], [], [], [], [], 0⟩ ∧
    (analyze_resume_match (txt "\t") (txt "  ")).ats_optimization_score = 0 :=
  ⟨(analyzers_no_validation_on_whitespace (txt "  ") (txt "\t")
      (by decide) (by decide)).1,
   (analyzers_no_validation_on_whitespace (txt "  ") (txt "\t")
      (by decide) (by decide)).2.2.2.2.2.2.2.2⟩

/-- Claim C3, amended: the thresholds ≥8 (high) and [5, 8) (medium) apply to
technical keywords only.  An unmatched soft skill goes to
missing_high_priority (suffixed with " (soft skill)") exactly when its
importance is ≥6 and is never added to missing_medium_priority; unmatched
industry categories are never added to either list.  The missing lists are
exactly: unmatched technical terms partitioned by the 8/5 thresholds in the
high list followed by the unmatched soft skills with importance ≥6. -/
theorem missing_priority_characterization (resume_text job_description : Text) :
    (analyze_resume_match resume_text job_description).missing_high_priority =
      ((extract_job_keywords job_description).technical.filter
        (fun kv => tech_unmatched (lowerText resume_text) kv &&
          decide (8 ≤ kv.2.importance))).map Prod.fst ++
      ((extract_job_keywords job_description).soft_skills.filter
        (fun kv => soft_unmatched (lowerText resume_text) kv &&
          decide (6 ≤ kv.2.importance))).map (fun kv => kv.1 ++ txt " (soft skill)") ∧
    (analyze_resume_match resume_text job_description).missing_medium_priority =
      ((extract_job_keywords job_description).technical.filter
        (fun kv => tech_unmatched (lowerText resume_text) kv &&
          decide (kv.2.importance < 8) && decide (5 ≤ kv.2.importance))).map Prod.fst := by
  exact ⟨missing_high_eq resume_text job_description, missing_med_eq resume_text job_description⟩

/-- Claim C3 counterexample: the job text "teamwork teamwork teamwork"
yields the soft skill collaboration with importance 6, which lies in [5, 8);
the claim says unmatched keywords with importance in [5, 8) go to
missing_medium_priority, but the scorer puts it (suffixed) into
missing_high_priority and leaves the medium list empty, because the
soft-skill threshold is 6-for-high with no medium case at all. -/
theorem soft_skill_threshold_counterexample :
    lookupKw (txt "collaboration")
      (extract_job_keywords (txt "teamwork teamwork teamwork")).soft_skills =
      some ⟨3, [txt "teamwork"], 6⟩ ∧
    (analyze_resume_match (txt "zzz")
      (txt "teamwork teamwork teamwork")).missing_high_priority =
      [txt "collaboration (soft skill)"] ∧
    (analyze_resume_match (txt "zzz")
      (txt "teamwork teamwork teamwork")).missing_medium_priority = [] := by
  refine ⟨by decide, by decide, by decide⟩

/-- Claim C4, amended: when the resume text contains at least one variant of
every technical keyword of the job profile, missing_high_priority contains
no technical keyword: it consists exactly of the unmatched soft skills of
importance ≥6, each suffixed with " (soft skill)", and so it need not be
empty. -/
theorem all_tech_matched_no_tech_missing (resume_text job_description : Text)
    (hall : ∀ kv ∈ (extract_job_keywords job_description).technical,
      ∃ v ∈ kv.2.variations, containsSub (lowerText resume_text) (lowerText v) = true) :
    (analyze_resume_match resume_text job_description).missing_high_priority =
      ((extract_job_keywords job_description).soft_skills.filter
        (fun kv => soft_unmatched (lowerText resume_text) kv &&
          decide (6 ≤ kv.2.importance))).map (fun kv => kv.1 ++ txt " (soft skill)") ∧
    ∀ kv ∈ (extract_job_keywords job_description).technical,
      kv.1 ∉ (analyze_resume_match resume_text job_description).missing_high_priority := by
  have htechnil : ((extract_job_keywords job_description).technical.filter
      (fun kv => tech_unmatched (lowerText resume_text) kv &&
        decide (8 ≤ kv.2.importance))) = [] := by
    rw [List.filter_eq_nil_iff]
    intro kv hkv
    obtain ⟨v, hv, hc⟩ := hall kv hkv
    have hmem : v ∈ matched_variations_of (lowerText resume_text) kv.2.variations :=
      List.mem_filter.mpr ⟨hv, hc⟩
    have hne : matched_variations_of (lowerText resume_text) kv.2.variations ≠ [] :=
      List.ne_nil_of_mem hmem
    have hemp : tech_unmatched (lowerText resume_text) kv = false := by
      unfold tech_unmatched
      simpa [List.isEmpty_iff] using hne
    simp [hemp]
  have h1 : (analyze_resume_match resume_text job_description).missing_high_priority =
      ((extract_job_keywords job_description).soft_skills.filter
        (fun kv => soft_unmatched (lowerText resume_text) kv &&
          decide (6 ≤ kv.2.importance))).map (fun kv => kv.1 ++ txt " (soft skill)") := by
    rw [missing_high_eq, htechnil]
    simp
  refine ⟨h1, ?_⟩
  intro kv hkv hmem
  rw [h1] at hmem
  obtain ⟨sv, hsv, heq⟩ := List.mem_map.mp hmem
  have hpar : '(' ∈ kv.1 := by
    rw [← heq]
    exact List.mem_append_right _ (by decide)
  have hkeys := (mem_tech_keywords_spec (lowerText job_description) kv hkv).1
  have hnopar : ∀ k ∈ tech_terms_with_variations.map Prod.fst, '(' ∉ k := by decide
  exact hnopar kv.1 hkeys hpar

/-- Claim C4 counterexample: for the job "python lead lead lead" the resume
"python zzz" contains a variant of every technical keyword of the profile
(python is matched), yet missing_high_priority is not the empty list: it
holds the unmatched soft skill leadership. -/
theorem missing_high_priority_soft_pollution :
    (∀ kv ∈ (extract_job_keywords (txt "python lead lead lead")).technical,
      ∃ v ∈ kv.2.variations,
        containsSub (lowerText (txt "python zzz")) (lowerText v) = true) ∧
    (analyze_resume_match (txt "python zzz")
      (txt "python lead lead lead")).missing_high_priority =
      [txt "leadership (soft skill)"] := by
  refine ⟨by decide, by decide⟩

/-- Claim C4 witness: with job and resume both "python", every technical
keyword of the profile is matched and the amended theorem yields an empty
missing_high_priority list. -/
theorem all_tech_matched_witness :
    (analyze_resume_match (txt "python") (txt "python")).missing_high_priority = [] := by
  have h := (all_tech_matched_no_tech_missing (txt "python") (txt "python") (by decide)).1
  rw [h]
  decide

theorem soft_mentions_of_eq_sum (jl : Text) (pats : List Text) :
    soft_mentions_of jl pats = (pats.map (fun p => countOcc p jl)).sum := by
  unfold soft_mentions_of
  congr 1
  apply List.map_congr_left
  intro p _
  by_cases h : containsSub jl p = true
  · rw [if_pos h]
  · rw [if_neg (by simp [h])]
    have h0 : ¬ (0 < countOcc p jl) := by
      intro hpos
      apply h
      unfold containsSub
      exact decide_eq_true hpos
    omega

/-- Claim C5: a term enters the profile iff the summed substring count of
its variants (patterns) in the lowered job text is positive, and its
importance is min(10, mentions*2 + distinct variants found) for technical
terms, min(8, mentions*2) for soft skills and min(6, mentions*2) for
industry categories. -/
theorem keyword_inclusion_importance_spec (job_description : Text) :
    (∀ (name : Text) (vars : List Text), (name, vars) ∈ tech_terms_with_variations →
      ((lookupKw name (extract_job_keywords job_description).technical).isSome ↔
        0 < ((vars.map (fun v => countOcc (lowerText v) (lowerText job_description))).sum)) ∧
      (∀ d, lookupKw name (extract_job_keywords job_description).technical = some d →
        d.mentions = total_variant_mentions (lowerText job_description) vars ∧
        d.importance = min 10 (total_variant_mentions (lowerText job_description) vars * 2 +
          (found_variations_of (lowerText job_description) vars).length))) ∧
    (∀ (name : Text) (pats : List Text), (name, pats) ∈ soft_terms_patterns →
      ((lookupKw name (extract_job_keywords job_description).soft_skills).isSome ↔
        0 < ((pats.map (fun p => countOcc p (lowerText job_description))).sum)) ∧
      (∀ d, lookupKw name (extract_job_keywords job_description).soft_skills = some d →
        d.mentions = soft_mentions_of (lowerText job_description) pats ∧
        d.importance = min 8 (soft_mentions_of (lowerText job_description) pats * 2))) ∧
    (∀ (name : Text) (terms : List Text), (name, terms) ∈ industry_terms →
      ((lookupKw name (extract_job_keywords job_description).industry).isSome ↔
        0 < ((terms.map (fun p => countOcc p (lowerText job_description))).sum)) ∧
      (∀ d, lookupKw name (extract_job_keywords job_description).industry = some d →
        d.mentions = soft_mentions_of (lowerText job_description) terms ∧
        d.importance = min 6 (soft_mentions_of (lowerText job_description) terms * 2))) := by
  refine ⟨?_, ?_, ?_⟩
  · intro name vars hmem
    rw [show (extract_job_keywords job_description).technical =
      tech_keywords_of (lowerText job_description) from rfl,
      lookupKw_tech_keywords_of (lowerText job_description) name vars hmem]
    constructor
    · unfold total_variant_mentions
      split
      · simpa
      · simp only [Option.isSome_none, Bool.false_eq_true, false_iff]
        omega
    · intro d hd
      split at hd
      · injection hd with h
        rw [← h]
        exact ⟨rfl, rfl⟩
      · cases hd
  · intro name pats hmem
    rw [show (extract_job_keywords job_description).soft_skills =
      soft_keywords_of (lowerText job_description) from rfl,
      lookupKw_soft_keywords_of (lowerText job_description) name pats hmem]
    constructor
    · rw [← soft_mentions_of_eq_sum]
      split
      · simpa
      · simp only [Option.isSome_none, Bool.false_eq_true, false_iff]
        omega
    · intro d hd
      split at hd
      · injection hd with h
        rw [← h]
        exact ⟨rfl, rfl⟩
      · cases hd
  · intro name terms hmem
    rw [show (extract_job_keywords job_description).industry =
      industry_keywords_of (lowerText job_description) from rfl,
      lookupKw_industry_keywords_of (lowerText job_description) name terms hmem]
    constructor
    · rw [← soft_mentions_of_eq_sum]
      split
      · simpa
      · simp only [Option.isSome_none, Bool.false_eq_true, false_iff]
        omega
    · intro d hd
      split at hd
      · injection hd with h
        rw [← h]
        exact ⟨rfl, rfl⟩
      · cases hd

/-- Claim C5 witness: the theorem applied to the python entry of the
technical table and the job text "python": the term is included. -/
theorem keyword_inclusion_importance_witness :
    (lookupKw (txt "python") (extract_job_keywords (txt "python")).technical).isSome := by
  have h := ((keyword_inclusion_importance_spec (txt "python")).1 (txt "python")
    [txt "python", txt "py", txt "django", txt "flask", txt "fastapi", txt "python3"]
    (by decide)).1
  exact h.mpr (by decide)

/-- Claim C6: at most 4 tips, one per rule, generated in the fixed order
missing-keywords, action-verb, quantification, irrelevant-content; each tip
present exactly when its condition holds (missing_high_priority nonempty,
action_verb_score < 50, quantification_score < 40, more than 2 irrelevant
items), the keyword tip naming at most the first three missing entries; and
when both the missing-keyword and the action-verb tips fire, the
missing-keyword tip comes first. -/
theorem ats_tips_order_spec (resume_text job_description : Text) :
    (analyze_resume_match resume_text job_description).ats_optimization_tips.length ≤ 4 ∧
    ((high_priority_tip_text ++ joinSep (txt ", ")
        ((analyze_resume_match resume_text job_description).missing_high_priority.take 3)) ∈
      (analyze_resume_match resume_text job_description).ats_optimization_tips ↔
      (analyze_resume_match resume_text job_description).missing_high_priority ≠ []) ∧
    (improve_tip_text ∈ (analyze_resume_match resume_text job_description).ats_optimization_tips
      ↔ (analyze_resume_match resume_text job_description).action_verb_score < 50) ∧
    (quantify_tip_text ∈ (analyze_resume_match resume_text job_description).ats_optimization_tips
      ↔ (analyze_resume_match resume_text job_description).quantification_score < 40) ∧
    (remove_tip_text ∈ (analyze_resume_match resume_text job_description).ats_optimization_tips
      ↔ 2 < (analyze_resume_match resume_text job_description).irrelevant_content.length) ∧
    ((analyze_resume_match resume_text job_description).missing_high_priority ≠ [] →
      (analyze_resume_match resume_text job_description).action_verb_score < 50 →
      ∃ rest, (analyze_resume_match resume_text job_description).ats_optimization_tips =
        (high_priority_tip_text ++ joinSep (txt ", ")
          ((analyze_resume_match resume_text job_description).missing_high_priority.take 3)) ::
        improve_tip_text :: rest) := by
  have e : (analyze_resume_match resume_text job_description).ats_optimization_tips =
      build_tips (analyze_resume_match resume_text job_description).missing_high_priority
        (analyze_resume_match resume_text job_description).action_verb_score
        (analyze_resume_match resume_text job_description).quantification_score
        (analyze_resume_match resume_text job_description).irrelevant_content.length := rfl
  rw [e]
  exact build_tips_spec _ _ _ _

/-- Claim C6 witness: the theorem at a job with an unmatched soft skill and
a resume with no action verbs; the missing-keyword tip precedes the
action-verb tip. -/
theorem ats_tips_order_witness :
    ∃ rest, (analyze_resume_match (txt "qqq")
        (txt "teamwork teamwork teamwork")).ats_optimization_tips =
      (high_priority_tip_text ++ joinSep (txt ", ")
        ((analyze_resume_match (txt "qqq")
          (txt "teamwork teamwork teamwork")).missing_high_priority.take 3)) ::
      improve_tip_text :: rest := by
  have hav : (analyze_resume_match (txt "qqq")
      (txt "teamwork teamwork teamwork")).action_verb_score < 50 := by
    have e : (analyze_resume_match (txt "qqq")
        (txt "teamwork teamwork teamwork")).action_verb_score =
        (((0 : Nat) : ℚ) / ((1 : Nat) : ℚ)) * 100 := rfl
    rw [e]
    norm_num
  exact (ats_tips_order_spec (txt "qqq") (txt "teamwork teamwork teamwork")).2.2.2.2.2
    (by decide) hav

/-- Claim C7: action_verb_score is the ratio of job action verbs found as
substrings of the lowered resume to max(1, number of job action verbs),
times 100: 0 when the job has action verbs and the resume none of them, 100
when the resume has all of them, and 0 (not a division error) when the job
has no action verbs at all. -/
theorem action_verb_score_spec (resume_text job_description : Text) :
    (analyze_resume_match resume_text job_description).action_verb_score =
      ((((extract_job_keywords job_description).action_verbs.filter
          (fun verb => containsSub (lowerText resume_text) verb)).length : ℚ) /
        (((max 1 (extract_job_keywords job_description).action_verbs.length) : Nat) : ℚ)) * 100 ∧
    ((extract_job_keywords job_description).action_verbs ≠ [] →
      (∀ v ∈ (extract_job_keywords job_description).action_verbs,
        containsSub (lowerText resume_text) v = false) →
      (analyze_resume_match resume_text job_description).action_verb_score = 0) ∧
    ((extract_job_keywords job_description).action_verbs ≠ [] →
      (∀ v ∈ (extract_job_keywords job_description).action_verbs,
        containsSub (lowerText resume_text) v = true) →
      (analyze_resume_match resume_text job_description).action_verb_score = 100) ∧
    ((extract_job_keywords job_description).action_verbs = [] →
      (analyze_resume_match resume_text job_description).action_verb_score = 0) := by
  have e : (analyze_resume_match resume_text job_description).action_verb_score =
      ((((extract_job_keywords job_description).action_verbs.filter
          (fun verb => containsSub (lowerText resume_text) verb)).length : ℚ) /
        (((max 1 (extract_job_keywords job_description).action_verbs.length) : Nat) : ℚ))
        * 100 := rfl
  refine ⟨e, ?_, ?_, ?_⟩
  · intro _ hnone
    rw [e]
    have hf : (extract_job_keywords job_description).action_verbs.filter
        (fun verb => containsSub (lowerText resume_text) verb) = [] := by
      rw [List.filter_eq_nil_iff]
      intro v hv
      simp [hnone v hv]
    rw [hf]
    simp
  · intro hne hall
    rw [e]
    have hf : (extract_job_keywords job_description).action_verbs.filter
        (fun verb => containsSub (lowerText resume_text) verb) =
        (extract_job_keywords job_description).action_verbs := by
      rw [List.filter_eq_self]
      exact hall
    rw [hf]
    have hpos : 0 < (extract_job_keywords job_description).action_verbs.length :=
      List.length_pos.mpr hne
    rw [Nat.max_eq_right hpos]
    rw [div_self (by exact_mod_cast Nat.pos_iff_ne_zero.mp hpos), one_mul]
  · intro h0
    rw [e, h0]
    simp

/-- Claim C7 witness: job and resume both "build": every job action verb is
in the resume and the score is 100. -/
theorem action_verb_score_witness :
    (analyze_resume_match (txt "build") (txt "build")).action_verb_score = 100 :=
  (action_verb_score_spec (txt "build") (txt "build")).2.2.1 (by decide) (by decide)

/-- Claim C8: appending any additional text (in particular further variant
occurrences of the term) to the job text never decreases a technical term's
computed importance, and every computed importance respects its category cap
(10 technical, 8 soft skill, 6 industry). -/
theorem importance_monotone_and_capped :
    (∀ (job_text extra name : Text) (vars : List Text),
      (name, vars) ∈ tech_terms_with_variations →
      importance_of_tech (extract_job_keywords job_text) name ≤
        importance_of_tech (extract_job_keywords (job_text ++ extra)) name) ∧
    (∀ job_text : Text,
      (∀ kv ∈ (extract_job_keywords job_text).technical, kv.2.importance ≤ 10) ∧
      (∀ kv ∈ (extract_job_keywords job_text).soft_skills, kv.2.importance ≤ 8) ∧
      (∀ kv ∈ (extract_job_keywords job_text).industry, kv.2.importance ≤ 6)) := by
  constructor
  · intro jt extra name vars hmem
    unfold importance_of_tech
    rw [show (extract_job_keywords jt).technical =
        tech_keywords_of (lowerText jt) from rfl,
      show (extract_job_keywords (jt ++ extra)).technical =
        tech_keywords_of (lowerText (jt ++ extra)) from rfl,
      lookupKw_tech_keywords_of _ name vars hmem,
      lookupKw_tech_keywords_of _ name vars hmem,
      lowerText_append jt extra]
    have hT : total_variant_mentions (lowerText jt) vars ≤
        total_variant_mentions (lowerText jt ++ lowerText extra) vars := by
      apply List.sum_le_sum
      intro v _
      exact countOcc_le_append (lowerText v) (lowerText jt) (lowerText extra)
    have hF : (found_variations_of (lowerText jt) vars).length ≤
        (found_variations_of (lowerText jt ++ lowerText extra) vars).length := by
      apply filter_length_mono_of_imp
      intro v _ hv
      exact containsSub_append (lowerText v) (lowerText jt) (lowerText extra) hv
    by_cases h1 : 0 < total_variant_mentions (lowerText jt) vars
    · rw [if_pos h1, if_pos (lt_of_lt_of_le h1 hT)]
      exact min_le_min le_rfl (by omega)
    · rw [if_neg h1]
      exact Nat.zero_le _
  · intro jt
    exact ⟨fun kv h => (mem_tech_keywords_spec _ kv h).2.2,
      fun kv h => (mem_soft_keywords_spec _ kv h).2.2,
      fun kv h => (mem_industry_keywords_spec _ kv h).2.2.2⟩

/-- Claim C8 witness: the monotonicity part applied to python with an extra
occurrence appended. -/
theorem importance_monotone_witness :
    importance_of_tech (extract_job_keywords (txt "python")) (txt "python") ≤
      importance_of_tech (extract_job_keywords (txt "python" ++ txt " python"))
        (txt "python") :=
  importance_monotone_and_capped.1 (txt "python") (txt " python") (txt "python")
    [txt "python", txt "py", txt "django", txt "flask", txt "fastapi", txt "python3"]
    (by decide)

/-- Claim C9, amended: the education classification of the resume analyzer
is branch-priority, not last-match-wins: the master/mba triggers take
precedence over the phd/doctorate triggers regardless of where the triggers
occur in the text, and with no trigger at all the level stays at the
initial default bachelor. -/
theorem education_priority_spec (resume_text : Text) (h : resume_text ≠ []) :
    ((containsSub (lowerText resume_text) (txt "master") = true ∨
        containsSub (lowerText resume_text) (txt "mba") = true) →
      (analyze_resume_experience resume_text).map (fun r => r.education_level) =
        some (txt "master")) ∧
    (containsSub (lowerText resume_text) (txt "master") = false →
      containsSub (lowerText resume_text) (txt "mba") = false →
      (containsSub (lowerText resume_text) (txt "phd") = true ∨
        containsSub (lowerText resume_text) (txt "doctorate") = true) →
      (analyze_resume_experience resume_text).map (fun r => r.education_level) =
        some (txt "phd")) ∧
    (containsSub (lowerText resume_text) (txt "master") = false →
      containsSub (lowerText resume_text) (txt "mba") = false →
      containsSub (lowerText resume_text) (txt "phd") = false →
      containsSub (lowerText resume_text) (txt "doctorate") = false →
      (analyze_resume_experience resume_text).map (fun r => r.education_level) =
        some (txt "bachelor")) := by
  have hne : resume_text.isEmpty = false := by
    cases resume_text with
    | nil => exact absurd rfl h
    | cons a l => rfl
  refine ⟨?_, ?_, ?_⟩
  · intro hcase
    rcases hcase with hm | hm <;> simp [analyze_resume_experience, hne, hm]
  · intro h1 h2 hcase
    rcases hcase with hm | hm <;> simp [analyze_resume_experience, hne, h1, h2, hm]
  · intro h1 h2 h3 h4
    simp [analyze_resume_experience, hne, h1, h2, h3, h4]

/-- Claim C9 witness: the amended theorem applied to a resume holding only a
master trigger. -/
theorem education_priority_witness :
    (analyze_resume_experience (txt "master of science")).map
      (fun r => r.education_level) = some (txt "master") :=
  (education_priority_spec (txt "master of science") (by decide)).1 (Or.inl (by decide))

/-- Claim C9 counterexample: in the text "master phd" the last matching
trigger is phd, so last-match-wins (the behaviour the claim asserts, built
here from the spec words as spec_last_match_education) returns phd, but the
code returns master: its if/elif chain gives the master branch priority. -/
theorem education_last_match_counterexample :
    spec_last_match_education (txt "master phd") = txt "phd" ∧
    (analyze_resume_experience (txt "master phd")).map
      (fun r => r.education_level) = some (txt "master") := by
  refine ⟨by decide, by decide⟩

/-- Claim C10: industry_matches only ever holds the keys remote, startup and
enterprise; industry categories outside those three are never added to a
missing list; and their importance still inflates the denominator, so the
base match percentage is strictly below 100 whenever the profile holds any
such category. -/
theorem industry_matching_spec (resume_text job_description : Text) :
    (∀ kv ∈ (analyze_resume_match resume_text job_description).industry_matches,
      kv.1 = txt "remote" ∨ kv.1 = txt "startup" ∨ kv.1 = txt "enterprise") ∧
    (∀ kv ∈ (extract_job_keywords job_description).industry,
      kv.1 ∉ three_context_categories →
      kv.1 ∉ (analyze_resume_match resume_text job_description).missing_high_priority ∧
      kv.1 ∉ (analyze_resume_match resume_text job_description).missing_medium_priority) ∧
    ((∃ kv ∈ (extract_job_keywords job_description).industry,
        kv.1 ∉ three_context_categories) →
      (analyze_resume_match resume_text job_description).match_percentage < 100) := by
  have hdisj : ∀ k ∈ industry_terms.map Prod.fst,
      k ∉ tech_terms_with_variations.map Prod.fst := by decide
  have hnopar : ∀ k ∈ industry_terms.map Prod.fst, '(' ∉ k := by decide
  refine ⟨?_, ?_, ?_⟩
  · have e : (analyze_resume_match resume_text job_description).industry_matches =
        (indLoop (lowerText resume_text)
          (extract_job_keywords job_description).industry ⟨0, 0, []⟩).indMatches := rfl
    rw [e, indLoop_spec]
    intro kv hkv
    simp only [List.nil_append] at hkv
    obtain ⟨kv2, hkv2, rfl⟩ := List.mem_map.mp hkv
    have hf := (List.mem_filter.mp hkv2).2
    have hc : kv2.1 ∈ three_context_categories := by
      simp only [ind_matched, Bool.and_eq_true] at hf
      simpa using hf.1
    simpa [three_context_categories] using hc
  · intro kv hkv hnot
    have hindkey := (mem_industry_keywords_spec (lowerText job_description) kv hkv).1
    constructor
    · rw [missing_high_eq]
      intro hmem
      rcases List.mem_append.mp hmem with hl | hr
      · obtain ⟨tv, htv, heq⟩ := List.mem_map.mp hl
        have : tv ∈ (extract_job_keywords job_description).technical :=
          List.mem_of_mem_filter htv
        have htechkey := (mem_tech_keywords_spec (lowerText job_description) tv this).1
        rw [← heq] at hindkey
        exact hdisj tv.1 hindkey htechkey
      · obtain ⟨sv, hsv, heq⟩ := List.mem_map.mp hr
        have hpar : '(' ∈ kv.1 := by
          rw [← heq]
          exact List.mem_append_right _ (by decide)
        exact hnopar kv.1 hindkey hpar
    · rw [missing_med_eq]
      intro hmem
      obtain ⟨tv, htv, heq⟩ := List.mem_map.mp hmem
      have : tv ∈ (extract_job_keywords job_description).technical :=
        List.mem_of_mem_filter htv
      have htechkey := (mem_tech_keywords_spec (lowerText job_description) tv this).1
      rw [← heq] at hindkey
      exact hdisj tv.1 hindkey htechkey
  · intro ⟨kv, hkv, hnot⟩
    have e : (analyze_resume_match resume_text job_description).match_percentage =
        ((((techLoop (lowerText resume_text)
              (extract_job_keywords job_description).technical ⟨0, 0, [], [], []⟩).matched +
            (softLoop (lowerText resume_text)
              (extract_job_keywords job_description).soft_skills
              ⟨0, 0, [], (techLoop (lowerText resume_text)
                (extract_job_keywords job_description).technical
                ⟨0, 0, [], [], []⟩).hi⟩).matched +
            (indLoop (lowerText resume_text)
              (extract_job_keywords job_description).industry ⟨0, 0, []⟩).matched : Nat) : ℚ) /
          (((max 1 ((techLoop (lowerText resume_text)
              (extract_job_keywords job_description).technical ⟨0, 0, [], [], []⟩).total +
            (softLoop (lowerText resume_text)
              (extract_job_keywords job_description).soft_skills
              ⟨0, 0, [], (techLoop (lowerText resume_text)
                (extract_job_keywords job_description).technical
                ⟨0, 0, [], [], []⟩).hi⟩).total +
            (indLoop (lowerText resume_text)
              (extract_job_keywords job_description).industry ⟨0, 0, []⟩).total)) : Nat) : ℚ))
          * 100 := rfl
    rw [e, techLoop_spec, softLoop_spec, indLoop_spec]
    simp only [Nat.zero_add]
    have hspec := mem_industry_keywords_spec (lowerText job_description) kv hkv
    have himp : 2 ≤ kv.2.importance := by
      rw [hspec.2.2.1]
      refine le_min (by norm_num) (by omega)
    have hpkv : ind_matched (lowerText resume_text) kv = false := by
      simp [ind_matched, hnot]
    have hmT := sum_map_filter_le (fun kv => !tech_unmatched (lowerText resume_text) kv)
      (fun kv => kv.2.importance) (extract_job_keywords job_description).technical
    have hmS := sum_map_filter_le (fun kv => !soft_unmatched (lowerText resume_text) kv)
      (fun kv => kv.2.importance) (extract_job_keywords job_description).soft_skills
    have hmI := sum_map_filter_add_le (fun kv => ind_matched (lowerText resume_text) kv)
      (fun kv => kv.2.importance) (extract_job_keywords job_description).industry kv hkv hpkv
    simp only at hmI
    set mT := (((extract_job_keywords job_description).technical.filter
      (fun kv => !tech_unmatched (lowerText resume_text) kv)).map
        (fun kv => kv.2.importance)).sum with hmTdef
    set mS := (((extract_job_keywords job_description).soft_skills.filter
      (fun kv => !soft_unmatched (lowerText resume_text) kv)).map
        (fun kv => kv.2.importance)).sum with hmSdef
    set mI := (((extract_job_keywords job_description).industry.filter
      (fun kv => ind_matched (lowerText resume_text) kv)).map
        (fun kv => kv.2.importance)).sum with hmIdef
    set tT := (((extract_job_keywords job_description).technical).map
      (fun kv => kv.2.importance)).sum with htTdef
    set tS := (((extract_job_keywords job_description).soft_skills).map
      (fun kv => kv.2.importance)).sum with htSdef
    set tI := (((extract_job_keywords job_description).industry).map
      (fun kv => kv.2.importance)).sum with htIdef
    have hT2 : 2 ≤ tT + tS + tI := by
      have hkvin : kv.2.importance ∈ ((extract_job_keywords job_description).industry.map
          (fun kv => kv.2.importance)) := List.mem_map.mpr ⟨kv, hkv, rfl⟩
      have hle := List.single_le_sum (fun (x : Nat) _ => Nat.zero_le x) _ hkvin
      rw [← htIdef] at hle
      omega
    have hmax : (1 : Nat) ⊔ (tT + tS + tI) = tT + tS + tI := Nat.max_eq_right (by omega)
    rw [hmax]
    have hlt : ((mT + mS + mI : Nat) : ℚ) / ((tT + tS + tI : Nat) : ℚ) < 1 := by
      rw [div_lt_one (by exact_mod_cast (by omega : 0 < tT + tS + tI))]
      exact_mod_cast (by omega : mT + mS + mI < tT + tS + tI)
    calc ((mT + mS + mI : Nat) : ℚ) / ((tT + tS + tI : Nat) : ℚ) * 100 < 1 * 100 :=
          mul_lt_mul_of_pos_right hlt (by norm_num)
      _ = 100 := one_mul 100

/-- Claim C10 witness: a job text mentioning only saas gives a profile whose
single industry category is outside the three context-based ones, and the
base match percentage is strictly below 100. -/
theorem industry_matching_witness :
    (analyze_resume_match (txt "zzz") (txt "saas")).match_percentage < 100 := by
  apply (industry_matching_spec (txt "zzz") (txt "saas")).2.2
  exact ⟨(txt "saas", ⟨1, 2⟩), by decide, by decide⟩

end JobFit
